import Mathlib

/-!
Verification of the thesis compliance checker (`Checker.py`).

The Python source is shallowly embedded: strings are Lean `String`s
manipulated through their underlying `List Char`, Python `int` is `Int`
(or `Nat` where the source only ever holds non-negative values), Python
floats coming from document measurements are modelled as `ℚ`, and each
regular expression of the source is embedded as a character-level
matching function following the semantics of that concrete pattern.
Functions keep the names of the source where Lean allows it.
-/

namespace TC

/-! ## Python string primitives -/

/-- Whitespace as recognised by Python `str.strip` / regex `\s`
(the ASCII whitespace characters: space, tab, newline, carriage
return, vertical tab, form feed). -/
def isWsPy (c : Char) : Bool :=
  decide (c.toNat = 32 ∨ c.toNat = 9 ∨ c.toNat = 10 ∨
    c.toNat = 13 ∨ c.toNat = 11 ∨ c.toNat = 12)

/-- Python `s.strip()` on the character list. -/
def stripChars (l : List Char) : List Char :=
  ((l.dropWhile isWsPy).reverse.dropWhile isWsPy).reverse

/-- Python `s.strip()`. -/
def pyStrip (s : String) : String := ⟨stripChars s.data⟩

/-- Python `str.lower` on one character (ASCII fragment). -/
def lowerChar (c : Char) : Char :=
  if 65 ≤ c.toNat ∧ c.toNat ≤ 90 then Char.ofNat (c.toNat + 32) else c

/-- Python `s.lower()`. -/
def pyLower (s : String) : String := ⟨s.data.map lowerChar⟩

/-- The character folding done by `normalise`:
`s.replace("’", "'").replace("–", "-").replace("—", "-")`.
Each replacement maps a single character to a single character, so the
three `replace` calls amount to one character map. -/
def replTypoChar (c : Char) : Char :=
  if c = '’' then '\'' else if c = '–' then '-' else if c = '—' then '-' else c

/-- `re.sub(r"\s+", " ", s)`: every maximal whitespace run becomes one
space.  The Boolean argument records whether the previous character was
whitespace (in which case further whitespace of the same run is
dropped). -/
def collapseAux : Bool → List Char → List Char
  | _, [] => []
  | prevWs, c :: cs =>
    if isWsPy c then
      if prevWs then collapseAux true cs
      else ' ' :: collapseAux true cs
    else c :: collapseAux false cs

def collapseWs (l : List Char) : List Char := collapseAux false l

/-- `normalise` of `Checker.py` on the character list:
strip, fold typographic characters, collapse whitespace, lower-case. -/
def normChars (l : List Char) : List Char :=
  (collapseWs ((stripChars l).map replTypoChar)).map lowerChar

/-- `normalise(s)` from `Checker.py`. -/
def normalise (s : String) : String := ⟨normChars s.data⟩

/-! ## Character-level facts -/

theorem char_eq_iff_toNat {c d : Char} : c = d ↔ c.toNat = d.toNat := by
  constructor
  · intro h
    rw [h]
  · intro h
    exact Char.ext (UInt32.ext h)

theorem lowerChar_toNat (c : Char) :
    (lowerChar c).toNat =
      if 65 ≤ c.toNat ∧ c.toNat ≤ 90 then c.toNat + 32 else c.toNat := by
  unfold lowerChar
  split
  · next h =>
    simp only [Char.toNat] at h
    have hv : (c.val.toNat + 32).isValidChar := by
      constructor
      omega
    simp only [Char.ofNat, Char.toNat, dif_pos hv, Char.ofNatAux]
    rfl
  · rfl

/-- Omega-friendly description of `lowerChar`. -/
theorem lowerChar_or (c : Char) :
    ((lowerChar c).toNat = c.toNat + 32 ∧ 65 ≤ c.toNat ∧ c.toNat ≤ 90) ∨
    ((lowerChar c).toNat = c.toNat ∧ ¬(65 ≤ c.toNat ∧ c.toNat ≤ 90)) := by
  have h := lowerChar_toNat c
  by_cases h1 : 65 ≤ c.toNat ∧ c.toNat ≤ 90
  · rw [if_pos h1] at h
    exact Or.inl ⟨h, h1⟩
  · rw [if_neg h1] at h
    exact Or.inr ⟨h, h1⟩

theorem replTypoChar_toNat (c : Char) :
    (replTypoChar c).toNat =
      if c.toNat = 8217 then 39 else if c.toNat = 8211 then 45
      else if c.toNat = 8212 then 45 else c.toNat := by
  unfold replTypoChar
  simp only [char_eq_iff_toNat]
  split <;> split <;> try split
  all_goals simp_all

/-- Omega-friendly description of `replTypoChar`. -/
theorem replTypoChar_or (c : Char) :
    ((replTypoChar c).toNat = 39 ∧ c.toNat = 8217) ∨
    ((replTypoChar c).toNat = 45 ∧ (c.toNat = 8211 ∨ c.toNat = 8212)) ∨
    ((replTypoChar c).toNat = c.toNat ∧ c.toNat ≠ 8217 ∧ c.toNat ≠ 8211 ∧ c.toNat ≠ 8212) := by
  have h := replTypoChar_toNat c
  by_cases h1 : c.toNat = 8217
  · rw [if_pos h1] at h
    exact Or.inl ⟨h, h1⟩
  · rw [if_neg h1] at h
    by_cases h2 : c.toNat = 8211
    · rw [if_pos h2] at h
      exact Or.inr (Or.inl ⟨h, Or.inl h2⟩)
    · rw [if_neg h2] at h
      by_cases h3 : c.toNat = 8212
      · rw [if_pos h3] at h
        exact Or.inr (Or.inl ⟨h, Or.inr h3⟩)
      · rw [if_neg h3] at h
        exact Or.inr (Or.inr ⟨h, h1, h2, h3⟩)

theorem isWsPy_lowerChar (c : Char) : isWsPy (lowerChar c) = isWsPy c := by
  simp only [isWsPy, decide_eq_decide]
  have h := lowerChar_or c
  omega

theorem lowerChar_idem (c : Char) : lowerChar (lowerChar c) = lowerChar c := by
  rw [char_eq_iff_toNat]
  have h1 := lowerChar_or c
  have h2 := lowerChar_or (lowerChar c)
  omega

theorem isWsPy_replTypoChar (c : Char) : isWsPy (replTypoChar c) = isWsPy c := by
  simp only [isWsPy, decide_eq_decide]
  have h := replTypoChar_or c
  omega

/-- The output of `replTypoChar` is never itself a typographic character,
so `replTypoChar` is idempotent. -/
theorem replTypoChar_fix (c : Char) : replTypoChar (replTypoChar c) = replTypoChar c := by
  rw [char_eq_iff_toNat]
  have h1 := replTypoChar_or c
  have h2 := replTypoChar_or (replTypoChar c)
  omega

theorem replTypoChar_lowerChar (c : Char) (h : replTypoChar c = c) :
    replTypoChar (lowerChar c) = lowerChar c := by
  rw [char_eq_iff_toNat] at h ⊢
  have h1 := replTypoChar_or c
  have h2 := replTypoChar_or (lowerChar c)
  have h3 := lowerChar_or c
  omega

theorem lowerChar_space : lowerChar ' ' = ' ' := by decide

theorem replTypoChar_space : replTypoChar ' ' = ' ' := by decide

/-! ## List-level helper lemmas -/

theorem mem_of_head? {α : Type} {l : List α} {c : α} (h : l.head? = some c) : c ∈ l := by
  cases l with
  | nil => simp at h
  | cons a t =>
    simp only [List.head?_cons, Option.some.injEq] at h
    rw [← h]
    exact List.mem_cons_self a t

theorem mem_of_getLast? {α : Type} {l : List α} {c : α} (h : l.getLast? = some c) : c ∈ l := by
  rw [List.getLast?_eq_head?_reverse] at h
  have := mem_of_head? h
  rwa [List.mem_reverse] at this

theorem dropWhile_head?_not {p : Char → Bool} {l : List Char} {c : Char}
    (h : (l.dropWhile p).head? = some c) : p c = false := by
  induction l with
  | nil => simp [List.dropWhile] at h
  | cons a t ih =>
    rw [List.dropWhile_cons] at h
    split at h
    · exact ih h
    · next hp =>
      simp only [List.head?_cons, Option.some.injEq] at h
      rw [← h]
      exact Bool.eq_false_iff.mpr hp

theorem dropWhile_eq_self_of {p : Char → Bool} {l : List Char}
    (h : ∀ c, l.head? = some c → p c = false) : l.dropWhile p = l := by
  cases l with
  | nil => rfl
  | cons a t =>
    rw [List.dropWhile_cons, if_neg]
    have := h a (by simp)
    simp [this]

theorem map_eq_self_of {f : Char → Char} {l : List Char}
    (h : ∀ c ∈ l, f c = c) : l.map f = l := by
  induction l with
  | nil => rfl
  | cons a t ih =>
    simp only [List.map_cons]
    rw [h a (List.mem_cons_self a t), ih (fun c hc => h c (List.mem_cons_of_mem a hc))]

theorem getLast?_map (f : Char → Char) (l : List Char) :
    (l.map f).getLast? = l.getLast?.map f := by
  rw [List.getLast?_eq_head?_reverse, List.getLast?_eq_head?_reverse, ← List.map_reverse]
  cases l.reverse <;> simp

/-! ## Facts about `stripChars` -/

theorem stripChars_head? {l : List Char} {c : Char}
    (h : (stripChars l).head? = some c) : isWsPy c = false := by
  unfold stripChars at h
  rw [List.head?_reverse] at h
  have hsuf := List.dropWhile_suffix (l := (l.dropWhile isWsPy).reverse) isWsPy
  obtain ⟨pre, hpre⟩ := hsuf
  have hne : (l.dropWhile isWsPy).reverse.dropWhile isWsPy ≠ [] := by
    intro hn
    rw [hn] at h
    simp at h
  have : (l.dropWhile isWsPy).reverse.getLast? = some c := by
    rw [← hpre, List.getLast?_append, h]
    rfl
  rw [List.getLast?_eq_head?_reverse, List.reverse_reverse] at this
  exact dropWhile_head?_not this

theorem stripChars_getLast? {l : List Char} {c : Char}
    (h : (stripChars l).getLast? = some c) : isWsPy c = false := by
  unfold stripChars at h
  rw [List.getLast?_eq_head?_reverse, List.reverse_reverse] at h
  exact dropWhile_head?_not h

theorem stripChars_eq_self {l : List Char}
    (h1 : ∀ c, l.head? = some c → isWsPy c = false)
    (h2 : ∀ c, l.getLast? = some c → isWsPy c = false) : stripChars l = l := by
  unfold stripChars
  rw [dropWhile_eq_self_of h1]
  rw [dropWhile_eq_self_of (p := isWsPy) (l := l.reverse)
    (fun c hc => h2 c (by rwa [List.head?_reverse] at hc))]
  exact List.reverse_reverse l

/-! ## Facts about `collapseAux` -/

/-- The adjacency relation of a whitespace-collapsed list: no two
consecutive whitespace characters. -/
def noWsPair (a b : Char) : Prop := isWsPy a = true → isWsPy b = false

theorem collapseAux_mem {b : Bool} {l : List Char} {c : Char}
    (h : c ∈ collapseAux b l) : c = ' ' ∨ (c ∈ l ∧ isWsPy c = false) := by
  induction l generalizing b with
  | nil => simp [collapseAux] at h
  | cons a t ih =>
    rw [collapseAux] at h
    split at h
    · next hws =>
      split at h
      · rcases ih h with h' | h'
        · exact Or.inl h'
        · exact Or.inr ⟨List.mem_cons_of_mem a h'.1, h'.2⟩
      · rcases List.mem_cons.mp h with h' | h'
        · exact Or.inl h'
        · rcases ih h' with h'' | h''
          · exact Or.inl h''
          · exact Or.inr ⟨List.mem_cons_of_mem a h''.1, h''.2⟩
    · next hws =>
      rcases List.mem_cons.mp h with h' | h'
      · subst h'
        exact Or.inr ⟨List.mem_cons_self c t, Bool.eq_false_iff.mpr hws⟩
      · rcases ih h' with h'' | h''
        · exact Or.inl h''
        · exact Or.inr ⟨List.mem_cons_of_mem a h''.1, h''.2⟩

theorem collapseAux_true_head? {l : List Char} {c : Char}
    (h : (collapseAux true l).head? = some c) : isWsPy c = false := by
  induction l with
  | nil => simp [collapseAux] at h
  | cons a t ih =>
    rw [collapseAux] at h
    split at h
    · exact ih h
    · next hws =>
      simp only [List.head?_cons, Option.some.injEq] at h
      rw [← h]
      exact Bool.eq_false_iff.mpr hws

theorem collapseAux_true_nil {l : List Char} (h : collapseAux true l = []) :
    ∀ c ∈ l, isWsPy c = true := by
  induction l with
  | nil => simp
  | cons a t ih =>
    rw [collapseAux] at h
    split at h
    · next hws =>
      intro c hc
      rcases List.mem_cons.mp hc with h' | h'
      · rw [h']; exact hws
      · exact ih h c h'
    · simp at h

theorem collapseAux_ne_nil {b : Bool} {l : List Char}
    (h : collapseAux b l ≠ []) : l ≠ [] := by
  intro hn
  subst hn
  exact h rfl

theorem collapseAux_chain (b : Bool) (l : List Char) :
    List.Chain' noWsPair (collapseAux b l) := by
  induction l generalizing b with
  | nil => simp [collapseAux]
  | cons a t ih =>
    rw [collapseAux]
    split
    · split
      · exact ih true
      · rw [List.chain'_cons']
        refine ⟨fun y hy => ?_, ih true⟩
        intro _
        exact collapseAux_true_head? hy
    · next hws =>
      rw [List.chain'_cons']
      refine ⟨fun y hy => ?_, ih false⟩
      intro hcontra
      exact absurd hcontra (by simp [Bool.eq_false_iff.mpr hws])

theorem getLast?_cons_ne {α : Type} (a : α) {t : List α} (h : t ≠ []) :
    (a :: t).getLast? = t.getLast? := by
  cases t with
  | nil => exact absurd rfl h
  | cons b u => exact List.getLast?_cons_cons

theorem collapseAux_getLast?_ws {b : Bool} {l : List Char} {c : Char}
    (h : (collapseAux b l).getLast? = some c) (hw : isWsPy c = true) :
    ∃ d, l.getLast? = some d ∧ isWsPy d = true := by
  induction l generalizing b with
  | nil => simp [collapseAux] at h
  | cons a t ih =>
    rw [collapseAux] at h
    split at h
    · next hws =>
      split at h
      · obtain ⟨d, hd, hdw⟩ := ih h
        have ht : t ≠ [] := by
          intro hn
          rw [hn] at hd
          simp at hd
        exact ⟨d, by rw [getLast?_cons_ne a ht]; exact hd, hdw⟩
      · by_cases hnil : collapseAux true t = []
        · rw [hnil] at h
          simp only [List.getLast?_singleton, Option.some.injEq] at h
          cases t with
          | nil => exact ⟨a, by simp, hws⟩
          | cons x u =>
            have hall := collapseAux_true_nil hnil
            have hne : (x :: u : List Char) ≠ [] := by simp
            obtain ⟨d, hd⟩ : ∃ d, (x :: u : List Char).getLast? = some d := by
              cases hh : (x :: u : List Char).getLast? with
              | none => rw [List.getLast?_eq_none_iff] at hh; exact absurd hh hne
              | some d => exact ⟨d, rfl⟩
            exact ⟨d, by rw [getLast?_cons_ne a hne]; exact hd,
              hall d (mem_of_getLast? hd)⟩
        · rw [getLast?_cons_ne ' ' hnil] at h
          obtain ⟨d, hd, hdw⟩ := ih h
          have ht : t ≠ [] := by
            intro hn
            rw [hn] at hd
            simp at hd
          exact ⟨d, by rw [getLast?_cons_ne a ht]; exact hd, hdw⟩
    · next hws =>
      by_cases hnil : collapseAux false t = []
      · rw [hnil] at h
        simp only [List.getLast?_singleton, Option.some.injEq] at h
        rw [← h] at hw
        exact absurd hw (by simp [Bool.eq_false_iff.mpr hws])
      · rw [getLast?_cons_ne a hnil] at h
        obtain ⟨d, hd, hdw⟩ := ih h
        have ht : t ≠ [] := by
          intro hn
          rw [hn] at hd
          simp at hd
        exact ⟨d, by rw [getLast?_cons_ne a ht]; exact hd, hdw⟩

theorem collapseAux_true_eq_false {l : List Char}
    (h : ∀ c, l.head? = some c → isWsPy c = false) :
    collapseAux true l = collapseAux false l := by
  cases l with
  | nil => rfl
  | cons a t =>
    have := h a (by simp)
    simp [collapseAux, this]

theorem collapseAux_eq_self {l : List Char}
    (hsp : ∀ c ∈ l, isWsPy c = true → c = ' ')
    (hch : List.Chain' noWsPair l) : collapseAux false l = l := by
  induction l with
  | nil => rfl
  | cons a t ih =>
    rw [List.chain'_cons'] at hch
    rw [collapseAux]
    split
    · next hws =>
      have ha : a = ' ' := hsp a (List.mem_cons_self a t) hws
      rw [collapseAux_true_eq_false (fun c hc => hch.1 c hc hws)]
      rw [ih (fun c hc hw => hsp c (List.mem_cons_of_mem a hc) hw) hch.2, ha]
      simp
    · rw [ih (fun c hc hw => hsp c (List.mem_cons_of_mem a hc) hw) hch.2]

/-! ## `normalise` is idempotent (claim C7) -/

theorem normChars_ws_space {l : List Char} :
    ∀ c ∈ normChars l, isWsPy c = true → c = ' ' := by
  intro c hc hw
  unfold normChars at hc
  obtain ⟨d, hd, hdc⟩ := List.mem_map.mp hc
  rw [← hdc] at hw
  rw [isWsPy_lowerChar] at hw
  rcases collapseAux_mem hd with h' | h'
  · rw [← hdc, h', lowerChar_space]
  · rw [h'.2] at hw
    simp at hw

theorem normChars_chain (l : List Char) : List.Chain' noWsPair (normChars l) := by
  unfold normChars
  rw [List.chain'_map]
  apply List.Chain'.imp ?_ (collapseAux_chain false _)
  intro a b hab
  unfold noWsPair at *
  rw [isWsPy_lowerChar, isWsPy_lowerChar]
  exact hab

theorem normChars_no_typo {l : List Char} : ∀ c ∈ normChars l, replTypoChar c = c := by
  intro c hc
  unfold normChars at hc
  obtain ⟨d, hd, hdc⟩ := List.mem_map.mp hc
  rcases collapseAux_mem hd with h' | h'
  · rw [← hdc, h', lowerChar_space, replTypoChar_space]
  · obtain ⟨e, he, hed⟩ := List.mem_map.mp h'.1
    have hfix : replTypoChar d = d := by
      rw [← hed]
      exact replTypoChar_fix e
    rw [← hdc]
    exact replTypoChar_lowerChar d hfix

theorem normChars_lower {l : List Char} : ∀ c ∈ normChars l, lowerChar c = c := by
  intro c hc
  unfold normChars at hc
  obtain ⟨d, hd, hdc⟩ := List.mem_map.mp hc
  rw [← hdc]
  exact lowerChar_idem d

theorem normChars_head? {l : List Char} {c : Char}
    (h : (normChars l).head? = some c) : isWsPy c = false := by
  unfold normChars at h
  rw [List.head?_map] at h
  cases hu : (collapseWs ((stripChars l).map replTypoChar)).head? with
  | none => rw [hu] at h; simp at h
  | some d =>
    rw [hu] at h
    simp only [Option.map_some', Option.some.injEq] at h
    rw [← h, isWsPy_lowerChar]
    unfold collapseWs at hu
    cases hv : ((stripChars l).map replTypoChar) with
    | nil => rw [hv] at hu; simp [collapseAux] at hu
    | cons a t =>
      have haw : isWsPy a = false := by
        have : ((stripChars l).map replTypoChar).head? = some a := by rw [hv]; rfl
        rw [List.head?_map] at this
        cases hs : (stripChars l).head? with
        | none => rw [hs] at this; simp at this
        | some e =>
          rw [hs] at this
          simp only [Option.map_some', Option.some.injEq] at this
          rw [← this, isWsPy_replTypoChar]
          exact stripChars_head? hs
      rw [hv, collapseAux, if_neg (by simp [haw])] at hu
      simp only [List.head?_cons, Option.some.injEq] at hu
      rw [← hu]
      exact haw

theorem normChars_getLast? {l : List Char} {c : Char}
    (h : (normChars l).getLast? = some c) : isWsPy c = false := by
  unfold normChars at h
  rw [getLast?_map] at h
  cases hu : (collapseWs ((stripChars l).map replTypoChar)).getLast? with
  | none => rw [hu] at h; simp at h
  | some d =>
    rw [hu] at h
    simp only [Option.map_some', Option.some.injEq] at h
    rw [← h, isWsPy_lowerChar]
    by_contra hcon
    have hdw : isWsPy d = true := by
      cases hb : isWsPy d
      · exact absurd hb hcon
      · rfl
    obtain ⟨e, he, hew⟩ := collapseAux_getLast?_ws hu hdw
    rw [getLast?_map] at he
    cases hs : (stripChars l).getLast? with
    | none => rw [hs] at he; simp at he
    | some f =>
      rw [hs] at he
      simp only [Option.map_some', Option.some.injEq] at he
      rw [← he, isWsPy_replTypoChar] at hew
      rw [stripChars_getLast? hs] at hew
      exact Bool.false_ne_true hew

theorem normChars_idem (l : List Char) : normChars (normChars l) = normChars l := by
  conv_lhs => rw [normChars]
  rw [stripChars_eq_self (fun c hc => normChars_head? hc) (fun c hc => normChars_getLast? hc)]
  rw [map_eq_self_of normChars_no_typo]
  unfold collapseWs
  rw [collapseAux_eq_self normChars_ws_space (normChars_chain l)]
  rw [map_eq_self_of normChars_lower]

/-- Claim C7: the text normalizer `normalise` of `Checker.py` (trim the
ends, fold typographic apostrophes and dashes to ASCII, collapse internal
whitespace runs to single spaces, lower-case) is idempotent:
`normalise(normalise(s)) == normalise(s)` for every string `s`. -/
theorem normalise_idempotent (s : String) : normalise (normalise s) = normalise s := by
  unfold normalise
  exact congrArg String.mk (normChars_idem s.data)

/-! ## Data model

A document as seen by the checker: its paragraph sequence (with the
run-level and paragraph-level formatting attributes that
`check_formatting` reads) and its section sequence (with margins).
-/

/-- A text run; `fontSizePt`/`fontName` are `none` when the attribute is
inherited (`python-docx` returns `None`). -/
structure DocRun where
  text : String
  fontSizePt : Option ℚ
  fontName : Option String

/-- An explicit paragraph line-spacing value: either a floating
multiplier (a Python `float`, e.g. double spacing `2.0`) or an absolute
length (a `python-docx` `Length`; the source only counts `float`s). -/
inductive LineSpacing where
  | mult (q : ℚ)
  | absLen (q : ℚ)

structure DocParagraph where
  runs : List DocRun
  lineSpacing : Option LineSpacing
  alignment : Option Int

/-- `python-docx` paragraph text: the concatenation of its run texts. -/
def DocParagraph.text (p : DocParagraph) : String :=
  ⟨(p.runs.map (fun r => r.text.data)).flatten⟩

/-- Section margins in inches (`section.*_margin.inches`). -/
structure DocSection where
  left_margin : ℚ
  right_margin : ℚ
  top_margin : ℚ
  bottom_margin : ℚ

structure Document where
  paragraphs : List DocParagraph
  sections : List DocSection

/-- The `Issue` dataclass of `Checker.py`. -/
structure Issue where
  rule_id : String
  severity : String
  message : String
  evidence : String
  location_hint : String
  anchor_paragraph_index : Int
deriving DecidableEq

/-- A convenience constructor for documents used in concrete tests:
a paragraph holding one run with the given text and no explicit
formatting. -/
def mkP (s : String) : DocParagraph := ⟨[⟨s, none, none⟩], none, none⟩

/-! ## Document model extractor -/

/-- `iter_paragraphs(doc)`: `[(i, (p.text or "").strip()) for i, p in
enumerate(doc.paragraphs)]`. -/
def iter_paragraphs (doc : Document) : List (Nat × String) :=
  (doc.paragraphs.map (fun p => pyStrip p.text)).enum

/-- `find_exact_heading_index`: first paragraph whose lower-cased text
equals the stripped lower-cased heading. -/
def find_exact_heading_index (paras : List (Nat × String)) (heading : String) : Option Nat :=
  (paras.find? (fun it => pyLower it.2 == pyLower (pyStrip heading))).map (fun it => it.1)

/-- `find_heading_like`: first paragraph whose lower-cased text is among
the lower-cased candidates. -/
def find_heading_like (paras : List (Nat × String)) (candidates : List String) : Option Nat :=
  (paras.find? (fun it => candidates.any (fun c => pyLower c == pyLower it.2))).map (fun it => it.1)

/-- The loop body of `extract_text_between`: skip indices below `start`,
stop at the first index `≥ end` (when an end is given), collect texts. -/
def extract_between_list : List (Nat × String) → Nat → Option Nat → List String
  | [], _, _ => []
  | (idx, t) :: rest, start, e =>
    if idx < start then extract_between_list rest start e
    else
      match e with
      | some e' =>
        if e' ≤ idx then []
        else t :: extract_between_list rest start (some e')
      | none => t :: extract_between_list rest start none

/-- `extract_text_between(paras, start, end)`:
`"\n".join(collected).strip()`. -/
def extract_text_between (paras : List (Nat × String)) (start : Nat) (e : Option Nat) : String :=
  pyStrip (String.intercalate "\n" (extract_between_list paras start e))

/-! ## Caption pattern library

`APA_TABLE_LABEL_RE  = ^\s*Table\s+(\d+)\s*$`   (IGNORECASE)
`APA_FIGURE_LABEL_RE = ^\s*Figure\s+(\d+)\s*$`  (IGNORECASE)
`BAD_DECIMAL_RE       = ^\s*(Table|Figure)\s+\d+\.\d+`      (IGNORECASE, prefix match)
`BAD_CHAPTER_STYLE_RE = ^\s*(Table|Figure)\s+\d+(\.\d+)+`   (IGNORECASE, prefix match)
-/

def isDigitPy (c : Char) : Bool := decide (48 ≤ c.toNat ∧ c.toNat ≤ 57)

/-- Case-insensitive literal-prefix match; the pattern is given in lower
case, the subject is lower-cased character-wise. -/
def stripPrefixCI : List Char → List Char → Option (List Char)
  | [], cs => some cs
  | _ :: _, [] => none
  | p :: ps, c :: cs => if lowerChar c = p then stripPrefixCI ps cs else none

/-- Python `int` of a digit run. -/
def digitsToNat (ds : List Char) : Nat :=
  ds.foldl (fun a c => a * 10 + (c.toNat - 48)) 0

/-- `^\s*WORD\s+(\d+)\s*$` (IGNORECASE): returns the captured digit run. -/
def labelNumMatch (word : List Char) (cs : List Char) : Option (List Char) :=
  match stripPrefixCI word (cs.dropWhile isWsPy) with
  | none => none
  | some cs2 =>
    match cs2 with
    | [] => none
    | c :: rest =>
      if isWsPy c then
        let cs3 := rest.dropWhile isWsPy
        let digits := cs3.takeWhile isDigitPy
        if digits.isEmpty then none
        else if (cs3.drop digits.length).dropWhile isWsPy = [] then some digits
        else none
      else none

/-- `\s+\d+\.\d+` after the keyword (the mandatory part of both bad-caption
patterns; for a Boolean prefix match `(\.\d+)+` succeeds iff its first
iteration `\.\d+` does). -/
def badNumTail (cs2 : List Char) : Bool :=
  match cs2 with
  | [] => false
  | c :: rest =>
    if isWsPy c then
      let cs3 := rest.dropWhile isWsPy
      let digits := cs3.takeWhile isDigitPy
      if digits.isEmpty then false
      else
        match cs3.drop digits.length with
        | '.' :: cs4 => !(cs4.takeWhile isDigitPy).isEmpty
        | _ => false
    else false

/-- `BAD_DECIMAL_RE.match(text)` as a Boolean. -/
def badDecimalMatch (cs : List Char) : Bool :=
  let cs1 := cs.dropWhile isWsPy
  match stripPrefixCI "table".data cs1 with
  | some cs2 => badNumTail cs2
  | none =>
    match stripPrefixCI "figure".data cs1 with
    | some cs2 => badNumTail cs2
    | none => false

/-- `BAD_CHAPTER_STYLE_RE.match(text)` as a Boolean (see `badNumTail`). -/
def badChapterStyleMatch (cs : List Char) : Bool :=
  badDecimalMatch cs

/-! ## `detect_table_figure_labels` -/

/-- An entry of the `tables` / `figures` lists
(`{"n": int(...), "pidx": pidx, "label": f"Table {...}"}`). -/
structure CapLabel where
  n : Nat
  pidx : Nat
  label : String
deriving DecidableEq

/-- An entry of the `bad` list (`{"pidx": pidx, "text": text}`). -/
structure BadCap where
  pidx : Nat
  text : String
deriving DecidableEq

structure DetectedLabels where
  tables : List CapLabel
  figures : List CapLabel
  bad : List BadCap

/-- The classification the loop body of `detect_table_figure_labels`
applies to one paragraph: empty paragraphs are skipped, a bad-caption
match goes to `bad` (and `continue`s), else a table label, else a figure
label.  The loop appends each paragraph to at most one of the three
lists, so each list is a `filterMap` over the paragraphs. -/
def badEntry? (it : Nat × String) : Option BadCap :=
  if it.2 = "" then none
  else if badDecimalMatch it.2.data || badChapterStyleMatch it.2.data then some ⟨it.1, it.2⟩
  else none

def tableEntry? (it : Nat × String) : Option CapLabel :=
  if it.2 = "" then none
  else if badDecimalMatch it.2.data || badChapterStyleMatch it.2.data then none
  else
    match labelNumMatch "table".data it.2.data with
    | some ds => some ⟨digitsToNat ds, it.1, "Table " ++ ⟨ds⟩⟩
    | none => none

def figureEntry? (it : Nat × String) : Option CapLabel :=
  if it.2 = "" then none
  else if badDecimalMatch it.2.data || badChapterStyleMatch it.2.data then none
  else
    match labelNumMatch "table".data it.2.data with
    | some _ => none
    | none =>
      match labelNumMatch "figure".data it.2.data with
      | some ds => some ⟨digitsToNat ds, it.1, "Figure " ++ ⟨ds⟩⟩
      | none => none

def detect_table_figure_labels (doc : Document) : DetectedLabels :=
  let paras := iter_paragraphs doc
  { tables := paras.filterMap tableEntry?
    figures := paras.filterMap figureEntry?
    bad := paras.filterMap badEntry? }

/-! ## `check_serial` and `check_lists` -/

/-- Python `max` of a non-empty list (`0` on `[]`, unused there). -/
def pyMaxList : List Nat → Nat
  | [] => 0
  | h :: t => t.foldl max h

/-- Python `min` of a non-empty list (`0` on `[]`, unused there). -/
def pyMinList : List Nat → Nat
  | [] => 0
  | h :: t => t.foldl min h

/-- Python `str` of a list of ints, e.g. `"[1, 3, 3]"`. -/
def pyReprNatList (l : List Nat) : String :=
  "[" ++ String.intercalate ", " (l.map toString) ++ "]"

def check_serial (items : List CapLabel) (kind : String) (rule_id : String) : List Issue :=
  match items with
  | [] => []
  | it0 :: rest =>
    let nums := (it0 :: rest).map (fun it => it.n)
    let expected := List.range' 1 (pyMaxList nums)
    let missing := expected.filter (fun n => decide (n ∉ nums))
    -- `sorted({n for n in nums if nums.count(n) > 1})`: the ascending
    -- list of the distinct numbers that repeat.
    let dupes := (List.range' 0 (pyMaxList nums + 1)).filter (fun n => 1 < nums.count n)
    (if pyMinList nums ≠ 1 then
      [⟨rule_id, "High", kind ++ " numbering must start at 1.",
        pyReprNatList nums, "Captions", (it0.pidx : Int)⟩] else []) ++
    (if ¬ missing.isEmpty then
      [⟨rule_id, "High", "Missing " ++ kind ++ " numbers: " ++ pyReprNatList missing ++
        ". Use serial numbering only.", pyReprNatList nums, "Captions", (it0.pidx : Int)⟩] else []) ++
    (if ¬ dupes.isEmpty then
      [⟨rule_id, "High", "Duplicate " ++ kind ++ " numbers: " ++ pyReprNatList dupes ++ ".",
        pyReprNatList nums, "Captions", (it0.pidx : Int)⟩] else [])

def check_lists (doc : Document) (detected : DetectedLabels) : List Issue :=
  let paras := iter_paragraphs doc
  let lot := find_exact_heading_index paras "List of Tables"
  let lof := find_exact_heading_index paras "List of Figures"
  (if ¬ detected.tables.isEmpty ∧ lot = none then
    [⟨"APA-LOT-001", "High", "List of Tables is missing but tables are present.",
      toString detected.tables.length ++ " tables detected.", "Front matter", 0⟩] else []) ++
  (if ¬ detected.figures.isEmpty ∧ lof = none then
    [⟨"APA-LOF-001", "High", "List of Figures is missing but figures are present.",
      toString detected.figures.length ++ " figures detected.", "Front matter", 0⟩] else []) ++
  detected.bad.map (fun b =>
    ⟨"APA-CAP-001", "High",
      "Non-APA caption numbering detected. Use Table 1, Table 2… and Figure 1, Figure 2… only.",
      b.text, "Paragraph " ++ toString (b.pidx + 1), (b.pidx : Int)⟩)

set_option maxRecDepth 10000

/-- Claim C3: on a caption list whose numbers in document order are
`[1, 3, 3]`, `check_serial` emits exactly the missing-`[2]` High finding
and the duplicate-`[3]` High finding, and no
"numbering must start at 1" finding. -/
theorem check_serial_1_3_3 (p1 p2 p3 : Nat) (s1 s2 s3 : String) :
    check_serial [⟨1, p1, s1⟩, ⟨3, p2, s2⟩, ⟨3, p3, s3⟩] "Table" "APA-TBL-001" =
      [⟨"APA-TBL-001", "High", "Missing Table numbers: [2]. Use serial numbering only.",
        "[1, 3, 3]", "Captions", (p1 : Int)⟩,
       ⟨"APA-TBL-001", "High", "Duplicate Table numbers: [3].",
        "[1, 3, 3]", "Captions", (p1 : Int)⟩] ∧
    ∀ i ∈ check_serial [⟨1, p1, s1⟩, ⟨3, p2, s2⟩, ⟨3, p3, s3⟩] "Table" "APA-TBL-001",
      i.message ≠ "Table numbering must start at 1." := by
  have h : check_serial [⟨1, p1, s1⟩, ⟨3, p2, s2⟩, ⟨3, p3, s3⟩] "Table" "APA-TBL-001" =
      [⟨"APA-TBL-001", "High", "Missing Table numbers: [2]. Use serial numbering only.",
        "[1, 3, 3]", "Captions", (p1 : Int)⟩,
       ⟨"APA-TBL-001", "High", "Duplicate Table numbers: [3].",
        "[1, 3, 3]", "Captions", (p1 : Int)⟩] := by
    unfold check_serial
    norm_num
    constructor
  refine ⟨h, ?_⟩
  intro i hi
  rw [h] at hi
  rcases List.mem_cons.mp hi with h1 | h1
  · subst h1
    exact (by decide : ("Missing Table numbers: [2]. Use serial numbering only." : String) ≠
      "Table numbering must start at 1.")
  · rcases List.mem_cons.mp h1 with h2 | h2
    · subst h2
      exact (by decide : ("Duplicate Table numbers: [3]." : String) ≠
        "Table numbering must start at 1.")
    · simp at h2

/-! ## Claim C2: bad captions are classified only as non-compliant -/

theorem iter_paragraphs_mem {doc : Document} {i : Nat} {t : String}
    (h : (i, t) ∈ iter_paragraphs doc) :
    (doc.paragraphs.map (fun p => pyStrip p.text)).get? i = some t := by
  unfold iter_paragraphs at h
  exact List.mem_enum_iff_get?.mp h

theorem iter_paragraphs_unique {doc : Document} {i : Nat} {t t' : String}
    (h : (i, t) ∈ iter_paragraphs doc) (h' : (i, t') ∈ iter_paragraphs doc) : t = t' := by
  have h1 := iter_paragraphs_mem h
  have h2 := iter_paragraphs_mem h'
  rw [h1] at h2
  exact Option.some_inj.mp h2

theorem badEntry?_of_bad {i : Nat} {t : String} (ht : t ≠ "")
    (hb : (badDecimalMatch t.data || badChapterStyleMatch t.data) = true) :
    badEntry? (i, t) = some ⟨i, t⟩ := by
  unfold badEntry?
  rw [if_neg ht, if_pos hb]

theorem tableEntry?_some {j : Nat} {u : String} {e : CapLabel}
    (h : tableEntry? (j, u) = some e) :
    e.pidx = j ∧ (badDecimalMatch u.data || badChapterStyleMatch u.data) = false := by
  unfold tableEntry? at h
  split at h
  · exact absurd h (by simp)
  · split at h
    · exact absurd h (by simp)
    · next hbad =>
      constructor
      · split at h
        · rw [← Option.some_inj.mp h]
        · exact absurd h (by simp)
      · exact Bool.eq_false_iff.mpr hbad

theorem figureEntry?_some {j : Nat} {u : String} {e : CapLabel}
    (h : figureEntry? (j, u) = some e) :
    e.pidx = j ∧ (badDecimalMatch u.data || badChapterStyleMatch u.data) = false := by
  unfold figureEntry? at h
  split at h
  · exact absurd h (by simp)
  · split at h
    · exact absurd h (by simp)
    · next hbad =>
      constructor
      · split at h
        · exact absurd h (by simp)
        · split at h
          · rw [← Option.some_inj.mp h]
          · exact absurd h (by simp)
      · exact Bool.eq_false_iff.mpr hbad

/-- If `f` returns (when it returns) the value `g a`, then
`filterMap f l` is a sublist of `map g l`. -/
theorem filterMap_sublist_map {α β : Type} (f : α → Option β) (g : α → β) (l : List α)
    (h : ∀ a b, f a = some b → b = g a) : (l.filterMap f).Sublist (l.map g) := by
  induction l with
  | nil => simp
  | cons a t ih =>
    rw [List.filterMap_cons, List.map_cons]
    cases hfa : f a with
    | none => exact ih.cons (g a)
    | some b =>
      rw [h a b hfa]
      exact ih.cons₂ (g a)

theorem iter_paragraphs_fst_nodup (doc : Document) :
    ((iter_paragraphs doc).map Prod.fst).Nodup := by
  unfold iter_paragraphs
  rw [List.enum_map_fst]
  exact List.nodup_range _

theorem bad_pidx_nodup (doc : Document) :
    (((iter_paragraphs doc).filterMap badEntry?).map (fun b => b.pidx)).Nodup := by
  rw [List.map_filterMap]
  apply List.Sublist.nodup
    (filterMap_sublist_map _ Prod.fst _ ?_) (iter_paragraphs_fst_nodup doc)
  intro a b hab
  cases hba : badEntry? a with
  | none => rw [hba] at hab; exact absurd hab (by simp)
  | some bc =>
    rw [hba] at hab
    simp only [Option.map_some', Option.some.injEq] at hab
    unfold badEntry? at hba
    split at hba
    · exact absurd hba (by simp)
    · split at hba
      · rw [← hab, ← Option.some_inj.mp hba]
      · exact absurd hba (by simp)

/-- The countP predicate of claim C2: a High `APA-CAP-001` finding anchored
at paragraph `i`. -/
def isCapIssueAt (i : Nat) (iss : Issue) : Bool :=
  iss.rule_id == "APA-CAP-001" && iss.severity == "High" &&
    iss.anchor_paragraph_index == (i : Int)

theorem countP_ite_singleton_false {c : Prop} [Decidable c] {p : Issue → Bool} {x : Issue}
    (h : p x = false) : List.countP p (if c then [x] else []) = 0 := by
  split
  · simp [List.countP_cons, h]
  · rfl

/-- `check_lists` contains one `APA-CAP-001` finding per `bad` entry; the
findings of its first two conditional blocks have other rule ids. -/
theorem countP_check_lists (doc : Document) (d : DetectedLabels) (i : Nat) :
    (check_lists doc d).countP (isCapIssueAt i) =
      d.bad.countP (fun b => b.pidx == i) := by
  unfold check_lists
  rw [List.countP_append, List.countP_append]
  rw [countP_ite_singleton_false rfl, countP_ite_singleton_false rfl]
  rw [List.countP_map]
  rw [List.countP_congr (q := fun b => b.pidx == i) ?_]
  · omega
  · intro b _
    show (isCapIssueAt i _ = true) ↔ _
    unfold isCapIssueAt
    simp [beq_iff_eq]

/-- Claim C2: a paragraph matching the chapter-qualified/decimal caption
form (`BAD_DECIMAL_RE` / `BAD_CHAPTER_STYLE_RE`, e.g. `Table 2.1`) is
recorded only in the `bad` list of `detect_table_figure_labels` — never in
the plain `tables`/`figures` lists consumed by `check_serial` — and
`check_lists` emits exactly one High `APA-CAP-001` finding anchored at it. -/
theorem bad_caption_only_noncompliant (doc : Document) (i : Nat) (t : String)
    (hmem : (i, t) ∈ iter_paragraphs doc)
    (hbad : (badDecimalMatch t.data || badChapterStyleMatch t.data) = true) :
    (⟨i, t⟩ : BadCap) ∈ (detect_table_figure_labels doc).bad ∧
    (∀ e ∈ (detect_table_figure_labels doc).tables, e.pidx ≠ i) ∧
    (∀ e ∈ (detect_table_figure_labels doc).figures, e.pidx ≠ i) ∧
    (check_lists doc (detect_table_figure_labels doc)).countP (isCapIssueAt i) = 1 := by
  have ht : t ≠ "" := by
    intro h
    rw [h] at hbad
    exact absurd hbad (by decide)
  have hbadmem : (⟨i, t⟩ : BadCap) ∈ (detect_table_figure_labels doc).bad := by
    show _ ∈ (iter_paragraphs doc).filterMap badEntry?
    exact List.mem_filterMap.mpr ⟨(i, t), hmem, badEntry?_of_bad ht hbad⟩
  refine ⟨hbadmem, ?_, ?_, ?_⟩
  · intro e he hei
    obtain ⟨⟨j, u⟩, hju, hsome⟩ :=
      List.mem_filterMap.mp (show e ∈ (iter_paragraphs doc).filterMap tableEntry? from he)
    obtain ⟨hpidx, hnb⟩ := tableEntry?_some hsome
    rw [hei] at hpidx
    rw [← hpidx] at hju
    rw [iter_paragraphs_unique hmem hju] at hbad
    rw [hbad] at hnb
    exact absurd hnb (by simp)
  · intro e he hei
    obtain ⟨⟨j, u⟩, hju, hsome⟩ :=
      List.mem_filterMap.mp (show e ∈ (iter_paragraphs doc).filterMap figureEntry? from he)
    obtain ⟨hpidx, hnb⟩ := figureEntry?_some hsome
    rw [hei] at hpidx
    rw [← hpidx] at hju
    rw [iter_paragraphs_unique hmem hju] at hbad
    rw [hbad] at hnb
    exact absurd hnb (by simp)
  · rw [countP_check_lists]
    have hc : (detect_table_figure_labels doc).bad.countP (fun b => b.pidx == i) =
        List.count i ((detect_table_figure_labels doc).bad.map (fun b => b.pidx)) := by
      rw [List.count_eq_countP, List.countP_map]
      rfl
    rw [hc]
    exact List.count_eq_one_of_mem (bad_pidx_nodup doc)
      (List.mem_map.mpr ⟨⟨i, t⟩, hbadmem, rfl⟩)

/-- A one-paragraph document whose only paragraph is the non-compliant
caption `Table 2.1`. -/
def capDocW : Document := ⟨[mkP "Table 2.1"], []⟩

theorem bad_caption_only_noncompliant_witness :
    (⟨0, "Table 2.1"⟩ : BadCap) ∈ (detect_table_figure_labels capDocW).bad ∧
    (∀ e ∈ (detect_table_figure_labels capDocW).tables, e.pidx ≠ 0) ∧
    (∀ e ∈ (detect_table_figure_labels capDocW).figures, e.pidx ≠ 0) ∧
    (check_lists capDocW (detect_table_figure_labels capDocW)).countP (isCapIssueAt 0) = 1 :=
  bad_caption_only_noncompliant capDocW 0 "Table 2.1" (by decide) (by decide)

/-! ## `check_structure` (rule group A) -/

def prelim_required : List String :=
  ["Declaration", "Abstract", "Acknowledgements", "Table of Contents"]

/-- The front-matter order list of the order check
(`order = ["Declaration", "Abstract", "Acknowledgements", "Dedication",
"Table of Contents"]`). -/
def fm_order : List String :=
  ["Declaration", "Abstract", "Acknowledgements", "Dedication", "Table of Contents"]

/-- `existing = [(h, indices[h]) for h in order if indices[h] is not None]`
(the `indices` dict maps each heading to `find_exact_heading_index`). -/
def fmExisting (paras : List (Nat × String)) : List (String × Nat) :=
  fm_order.filterMap (fun h => (find_exact_heading_index paras h).map (fun i => (h, i)))

/-- `idxs = [i for _, i in existing]`. -/
def fmIdxs (paras : List (Nat × String)) : List Nat :=
  (fmExisting paras).map (fun p => p.2)

/-- Python `sorted` on ints (a stable sort; on a list of naturals any
correct sort yields the same list, here insertion sort). -/
def insertNat (x : Nat) : List Nat → List Nat
  | [] => [x]
  | y :: ys => if x ≤ y then x :: y :: ys else y :: insertNat x ys

def pySortedNat (l : List Nat) : List Nat := l.foldr insertNat []

/-- Python `x or y` for `x` an optional int: `y` when `x` is `None` or
`0` (falsy), else the value of `x`. -/
def pyOrNat : Option Nat → Nat → Nat
  | none, b => b
  | some n, b => if n = 0 then b else n

/-- Python `str` of the `existing` list of `(heading, index)` tuples. -/
def pyReprPairList (l : List (String × Nat)) : String :=
  "[" ++ String.intercalate ", "
    (l.map (fun p => "('" ++ p.1 ++ "', " ++ toString p.2 ++ ")")) ++ "]"

/-- Python `str` of the chapter-index list (entries `None` or ints). -/
def pyReprOptNatList (l : List (Option Nat)) : String :=
  "[" ++ String.intercalate ", "
    (l.map (fun o => match o with | none => "None" | some n => toString n)) ++ "]"

/-- `ch = [find_heading_like(paras, [f"Chapter {i}", f"CHAPTER {i}"]) for i
in range(1, 6)]`.  (Note: the candidate lists contain only the numeral
forms `Chapter 1`..`Chapter 5`; both spellings lower-case to the same
string.) -/
def chapterIdxs (paras : List (Nat × String)) : List (Option Nat) :=
  (List.range' 1 5).map (fun n =>
    find_heading_like paras ["Chapter " ++ toString n, "CHAPTER " ++ toString n])

/-- The `STR-FM-001` loop: one High finding per missing required
front-matter heading. -/
def fm_missing_issues (paras : List (Nat × String)) : List Issue :=
  (prelim_required.filter (fun h => find_exact_heading_index paras h = none)).map
    (fun h => ⟨"STR-FM-001", "High", "Missing required front matter section: " ++ h ++ ".",
      "Heading not found exactly.", "Front matter", 0⟩)

/-- The `STR-FM-002` order check (`if existing:` then
`if idxs != sorted(idxs):`).  The anchor is `existing[0][1] if
existing[0][1] is not None else 0`; the entries of `existing` are never
`None`, so it is the first index (0 for an empty `existing`, unreachable
under the guard). -/
def fm_order_issues (paras : List (Nat × String)) : List Issue :=
  if fmExisting paras ≠ [] ∧ fmIdxs paras ≠ pySortedNat (fmIdxs paras) then
    [⟨"STR-FM-002", "High",
      "Front matter sections are not in the required order (Declaration → Abstract → Acknowledgements → Dedication (optional) → Table of Contents).",
      pyReprPairList (fmExisting paras), "Front matter",
      Int.ofNat (match fmExisting paras with | [] => 0 | e :: _ => e.2)⟩]
  else []

/-- The chapter checks `STR-CH-001` / `STR-CH-002`.  In the `else`
branch all entries of `ch` are ints, and Python sorts/compares them as
ints; `ch[0]` there is an int used directly as the anchor (the `.getD 0`
defaults are unreachable). -/
def chapter_issues (paras : List (Nat × String)) : List Issue :=
  let ch := chapterIdxs paras
  if ch.any (fun o => o.isNone) then
    [⟨"STR-CH-001", "High", "Default structure expects Chapter One to Chapter Five headings.",
      "Detected chapter heading indices: " ++ pyReprOptNatList ch, "Main body",
      Int.ofNat (pyOrNat (ch.headD none) 0)⟩]
  else
    let chv := ch.reduceOption
    if chv ≠ pySortedNat chv then
      [⟨"STR-CH-002", "High", "Chapters are not ordered sequentially (Chapter 1–5).",
        "Indices: " ++ pyReprOptNatList ch, "Main body",
        Int.ofNat ((ch.headD none).getD 0)⟩]
    else []

def bm_ref_issues (paras : List (Nat × String)) : List Issue :=
  if find_exact_heading_index paras "References" = none then
    [⟨"STR-BM-001", "High", "Missing References section.",
      "Heading 'References' not found.", "Back matter",
      Int.ofNat (pyOrNat ((chapterIdxs paras).getLastD none) 0)⟩]
  else []

def bm_app_issues (paras : List (Nat × String)) : List Issue :=
  if find_exact_heading_index paras "Appendices" = none then
    [⟨"STR-BM-002", "Medium",
      "Appendices section not found. If you have appendices, add an 'Appendices' heading.",
      "Heading 'Appendices' not found.", "Back matter",
      Int.ofNat (pyOrNat (find_exact_heading_index paras "References")
        (pyOrNat ((chapterIdxs paras).getLastD none) 0))⟩]
  else []

def phd_issues (paras : List (Nat × String)) (degree_type : String) : List Issue :=
  if pyLower degree_type = "phd" then
    if find_exact_heading_index paras "Vita" = none then
      [⟨"STR-PHD-001", "Medium", "PhD theses should include a Vita section.",
        "Heading 'Vita' not found.", "Back matter",
        Int.ofNat (pyOrNat (find_exact_heading_index paras "References")
          (pyOrNat ((chapterIdxs paras).getLastD none) 0))⟩]
    else []
  else []

/-- `check_structure(doc, degree_type)`: the sequential appends of the
source, block by block. -/
def check_structure (doc : Document) (degree_type : String) : List Issue :=
  let paras := iter_paragraphs doc
  fm_missing_issues paras ++ fm_order_issues paras ++ chapter_issues paras ++
    bm_ref_issues paras ++ bm_app_issues paras ++ phd_issues paras degree_type

/-! ## Claim C1: spelled-out chapter headings

The Structure evaluator searches only for the numeral forms
`Chapter 1`..`Chapter 5` (`find_heading_like(paras, [f"Chapter {i}",
f"CHAPTER {i}"])`), so a document whose chapter headings are the
spelled-out `Chapter One`..`Chapter Five` receives the missing-chapter
High finding `STR-CH-001`, contrary to the specification (and to the
finding's own message text, which names `Chapter One` to `Chapter Five`).
-/

/-- A document holding exactly the five spelled-out chapter headings, in
increasing paragraph order, each exactly once. -/
def chWordsDoc : Document :=
  ⟨[mkP "Chapter One", mkP "Chapter Two", mkP "Chapter Three",
    mkP "Chapter Four", mkP "Chapter Five"], []⟩

/-- Claim C1 (code divergence): on the spelled-out five-chapter document
the Structure evaluator emits the missing-chapter High finding
`STR-CH-001`, although the specification says such headings are accepted
as equivalents of `Chapter 1`..`Chapter 5` and no such finding results. -/
theorem spelled_out_chapters_flagged :
    (check_structure chWordsDoc "MPhil").countP
      (fun i => i.rule_id == "STR-CH-001" && i.severity == "High") = 1 := by decide

/-! ## Claim C4: the front-matter order finding -/

theorem insertNat_head (x : Nat) (l : List Nat) :
    (insertNat x l).head? = some x ∨ (insertNat x l).head? = l.head? := by
  cases l with
  | nil => exact Or.inl rfl
  | cons y ys =>
    rw [insertNat]
    split
    · exact Or.inl rfl
    · exact Or.inr rfl

theorem insertNat_chain {x : Nat} {l : List Nat}
    (h : List.Chain' (· ≤ ·) l) : List.Chain' (· ≤ ·) (insertNat x l) := by
  induction l with
  | nil => simp [insertNat]
  | cons y ys ih =>
    rw [insertNat]
    split
    · next hxy => exact List.Chain'.cons hxy h
    · next hxy =>
      rw [List.chain'_cons'] at h
      rw [List.chain'_cons']
      refine ⟨?_, ih h.2⟩
      intro z hz
      rcases insertNat_head x ys with hh | hh
      · rw [hh] at hz
        simp only [Option.mem_def, Option.some.injEq] at hz
        omega
      · rw [hh] at hz
        exact h.1 z hz

theorem pySortedNat_chain (l : List Nat) : List.Chain' (· ≤ ·) (pySortedNat l) := by
  induction l with
  | nil => simp [pySortedNat]
  | cons a t ih => exact insertNat_chain ih

theorem pySortedNat_fix {l : List Nat} (h : List.Chain' (· ≤ ·) l) : pySortedNat l = l := by
  induction l with
  | nil => rfl
  | cons a t ih =>
    rw [List.chain'_cons'] at h
    show insertNat a (pySortedNat t) = a :: t
    rw [ih h.2]
    cases t with
    | nil => rfl
    | cons y ys =>
      rw [insertNat, if_pos (h.1 y (by simp))]

theorem chain_lt_iff_of_nodup {l : List Nat} (hnd : l.Nodup) :
    List.Chain' (· < ·) l ↔ List.Chain' (· ≤ ·) l := by
  constructor
  · intro h
    exact h.imp (fun _ _ hab => Nat.le_of_lt hab)
  · intro h
    rw [List.chain'_iff_pairwise] at h ⊢
    have hand := List.Pairwise.and h hnd
    exact hand.imp (fun hab => Nat.lt_of_le_of_ne hab.1 hab.2)

theorem ne_sorted_iff_not_chain {l : List Nat} (hnd : l.Nodup) :
    l ≠ pySortedNat l ↔ ¬ List.Chain' (· < ·) l := by
  rw [chain_lt_iff_of_nodup hnd]
  constructor
  · intro hne hch
    exact hne (pySortedNat_fix hch).symm
  · intro hch hne
    apply hch
    rw [hne]
    exact pySortedNat_chain l

theorem nodup_filterMap_of_pairwise {α β : Type} {l : List α} {f : α → Option β}
    (h : l.Pairwise (fun a a' => ∀ b, f a = some b → f a' ≠ some b)) :
    (l.filterMap f).Nodup := by
  induction l with
  | nil => simp
  | cons a t ih =>
    rw [List.pairwise_cons] at h
    rw [List.filterMap_cons]
    cases hfa : f a with
    | none => exact ih h.2
    | some b =>
      refine List.Nodup.cons ?_ (ih h.2)
      intro hb
      obtain ⟨a', ha', hfa'⟩ := List.mem_filterMap.mp hb
      exact h.1 a' ha' b hfa hfa'

theorem find_exact_some {paras : List (Nat × String)} {h : String} {i : Nat}
    (hf : find_exact_heading_index paras h = some i) :
    ∃ t, (i, t) ∈ paras ∧ pyLower t = pyLower (pyStrip h) := by
  unfold find_exact_heading_index at hf
  cases hfind : paras.find? (fun it => pyLower it.2 == pyLower (pyStrip h)) with
  | none => rw [hfind] at hf; exact absurd hf (by simp)
  | some p =>
    rw [hfind] at hf
    simp only [Option.map_some', Option.some.injEq] at hf
    have hp := List.find?_some hfind
    have hm := List.mem_of_find?_eq_some hfind
    rw [beq_iff_eq] at hp
    exact ⟨p.2, by rw [← hf]; exact hm, hp⟩

theorem fmIdxs_eq_filterMap (paras : List (Nat × String)) :
    fmIdxs paras = fm_order.filterMap (fun h => find_exact_heading_index paras h) := by
  unfold fmIdxs fmExisting
  rw [List.map_filterMap]
  congr 1
  funext h
  cases find_exact_heading_index paras h <;> simp

theorem fmIdxs_nodup (doc : Document) : (fmIdxs (iter_paragraphs doc)).Nodup := by
  rw [fmIdxs_eq_filterMap]
  apply nodup_filterMap_of_pairwise
  have hpw : fm_order.Pairwise (fun a a' => pyLower (pyStrip a) ≠ pyLower (pyStrip a')) := by
    decide
  refine hpw.imp ?_
  intro a a' hne b hfa hfa'
  obtain ⟨t, hmem, hlow⟩ := find_exact_some hfa
  obtain ⟨t', hmem', hlow'⟩ := find_exact_some hfa'
  have := iter_paragraphs_unique hmem hmem'
  subst this
  rw [hlow] at hlow'
  exact hne hlow'

theorem rule_of_fm_missing {paras : List (Nat × String)} {iss : Issue}
    (h : iss ∈ fm_missing_issues paras) : iss.rule_id = "STR-FM-001" := by
  obtain ⟨a, _, ha⟩ := List.mem_map.mp h
  rw [← ha]

theorem mem_ite_singleton {c : Prop} [Decidable c] {x iss : Issue}
    (h : iss ∈ (if c then [x] else [])) : iss = x ∧ c := by
  split at h
  · next hc => exact ⟨List.mem_singleton.mp h, hc⟩
  · exact absurd h (by simp)

theorem rule_of_chapter {paras : List (Nat × String)} {iss : Issue}
    (h : iss ∈ chapter_issues paras) :
    iss.rule_id = "STR-CH-001" ∨ iss.rule_id = "STR-CH-002" := by
  simp only [chapter_issues] at h
  split at h
  · exact Or.inl (by rw [List.mem_singleton.mp h])
  · split at h
    · exact Or.inr (by rw [List.mem_singleton.mp h])
    · exact absurd h (by simp)

/-- Claim C4: the Structure evaluator emits the front-matter ordering
High finding `STR-FM-002` iff the document-order indices of the present
front-matter subset, taken in the canonical order Declaration → Abstract
→ Acknowledgements → Dedication → Table of Contents, are not already
strictly increasing.  (Proved for all documents; when a heading occurs
more than once the evaluator uses its first occurrence.) -/
theorem fm_order_finding_iff (doc : Document) (degree_type : String) :
    (∃ iss ∈ check_structure doc degree_type,
        iss.rule_id = "STR-FM-002" ∧ iss.severity = "High") ↔
      ¬ List.Chain' (· < ·) (fmIdxs (iter_paragraphs doc)) := by
  have hnd := fmIdxs_nodup doc
  have hiff := ne_sorted_iff_not_chain hnd
  constructor
  · intro ⟨iss, hmem, hrule, _⟩
    unfold check_structure at hmem
    rcases List.mem_append.mp hmem with hm | hm
    · rcases List.mem_append.mp hm with hm' | hm'
      · rcases List.mem_append.mp hm' with hm'' | hm''
        · rcases List.mem_append.mp hm'' with hm3 | hm3
          · rcases List.mem_append.mp hm3 with hm4 | hm4
            · rw [rule_of_fm_missing hm4] at hrule
              exact absurd hrule (by decide)
            · obtain ⟨_, hc⟩ := mem_ite_singleton (show iss ∈ _ from hm4)
              exact hiff.mp hc.2
          · rcases rule_of_chapter hm3 with h' | h' <;> rw [h'] at hrule <;>
              exact absurd hrule (by decide)
        · obtain ⟨hx, _⟩ := mem_ite_singleton (show iss ∈ _ from hm'')
          rw [hx] at hrule
          have hr : ("STR-BM-001" : String) = "STR-FM-002" := hrule
          exact absurd hr (by decide)
      · obtain ⟨hx, _⟩ := mem_ite_singleton (show iss ∈ _ from hm')
        rw [hx] at hrule
        have hr : ("STR-BM-002" : String) = "STR-FM-002" := hrule
        exact absurd hr (by decide)
    · unfold phd_issues at hm
      split at hm
      · split at hm
        · have hx := List.mem_singleton.mp hm
          rw [hx] at hrule
          have hr : ("STR-PHD-001" : String) = "STR-FM-002" := hrule
          exact absurd hr (by decide)
        · exact absurd hm (by simp)
      · exact absurd hm (by simp)
  · intro hnc
    have hne : fmIdxs (iter_paragraphs doc) ≠ pySortedNat (fmIdxs (iter_paragraphs doc)) :=
      hiff.mpr hnc
    have hex : fmExisting (iter_paragraphs doc) ≠ [] := by
      intro hnil
      apply hne
      unfold fmIdxs
      rw [hnil]
      rfl
    refine ⟨⟨"STR-FM-002", "High",
      "Front matter sections are not in the required order (Declaration → Abstract → Acknowledgements → Dedication (optional) → Table of Contents).",
      pyReprPairList (fmExisting (iter_paragraphs doc)), "Front matter",
      Int.ofNat (match fmExisting (iter_paragraphs doc) with | [] => 0 | e :: _ => e.2)⟩,
      ?_, rfl, rfl⟩
    unfold check_structure
    apply List.mem_append.mpr
    left
    apply List.mem_append.mpr
    left
    apply List.mem_append.mpr
    left
    apply List.mem_append.mpr
    left
    apply List.mem_append.mpr
    right
    unfold fm_order_issues
    rw [if_pos ⟨hex, hne⟩]
    exact List.mem_singleton.mpr rfl

/-! ## `check_abstract_keywords_dedication` (front-matter content rules) -/

/-- Python `s.split(",")` on the character level (keeps empty pieces). -/
def splitCommaChars : List Char → List (List Char)
  | [] => [[]]
  | c :: cs =>
    let r := splitCommaChars cs
    if c = ',' then [] :: r
    else
      match r with
      | [] => [[c]]
      | h :: t => (c :: h) :: t

def pySplitComma (s : String) : List String :=
  (splitCommaChars s.data).map (fun l => ⟨l⟩)

/-- `[k.strip() for k in line.split(",") if k.strip()]`. -/
def splitCommaClean (line : String) : List String :=
  ((pySplitComma line).map pyStrip).filter (fun k => k ≠ "")

/-- `"," in s`. -/
def containsComma (s : String) : Bool := s.data.any (fun c => c = ',')

/-- `t.strip("•- \t").strip()` (bullet/dash strip, then whitespace strip). -/
def isKwBulletChar (c : Char) : Bool := c == '•' || c == '-' || c == ' ' || c == '\t'

def stripKwTerm (t : String) : String :=
  pyStrip ⟨((t.data.dropWhile isKwBulletChar).reverse.dropWhile isKwBulletChar).reverse⟩

/-- Python `str` of a list of strings (repr quotes; the source only
displays this as evidence text, rendered here with single quotes). -/
def pyReprStrList (l : List String) : String :=
  "[" ++ String.intercalate ", " (l.map (fun s => "'" ++ s ++ "'")) ++ "]"

/-- Python string `<` (lexicographic by code point), used for sorting. -/
def strLtChars : List Char → List Char → Bool
  | [], [] => false
  | [], _ :: _ => true
  | _ :: _, [] => false
  | a :: as, b :: bs =>
    if a.toNat < b.toNat then true
    else if b.toNat < a.toNat then false
    else strLtChars as bs

def pyStrLe (a b : String) : Bool := !(strLtChars b.data a.data)

/-- Python `sorted` on strings (insertion sort; on any multiset of
strings every correct sort produces the same list). -/
def insertStr (x : String) : List String → List String
  | [] => [x]
  | y :: ys => if pyStrLe x y then x :: y :: ys else y :: insertStr x ys

def pySortedStrList (l : List String) : List String := l.foldr insertStr []

/-- Number of words of `text.split()` (maximal non-whitespace runs). -/
def wcAux : Bool → List Char → Nat
  | _, [] => 0
  | prev, c :: cs =>
    if isWsPy c then wcAux false cs
    else (if prev then 0 else 1) + wcAux true cs

def pyWordCount (s : String) : Nat := wcAux false s.data

/-- `next_idx`: the smallest found heading index after the abstract, or
`len(paras)`. -/
def absNextIdx (paras : List (Nat × String)) (a : Nat) : Nat :=
  let cands := [find_exact_heading_index paras "Key Words",
    find_exact_heading_index paras "Acknowledgements",
    find_exact_heading_index paras "Dedication",
    find_exact_heading_index paras "Table of Contents"]
  match (cands.filterMap id).filter (fun i => a < i) with
  | [] => paras.length
  | h :: t => t.foldl min h

/-- `wc`: the estimated abstract word count. -/
def absWc (paras : List (Nat × String)) (a : Nat) : Nat :=
  pyWordCount (extract_text_between paras (a + 1) (some (absNextIdx paras a)))

def abs_issues (paras : List (Nat × String)) : List Issue :=
  match find_exact_heading_index paras "Abstract" with
  | none => []
  | some a =>
    if 600 < absWc paras a then
      [⟨"CNT-ABS-001", "High",
        "Abstract appears longer than one page. Shorten it to not more than one page.",
        "Estimated abstract word count: " ++ toString (absWc paras a),
        "Paragraph " ++ toString (a + 1), Int.ofNat a⟩]
    else []

/-- The stop set of the keyword line scan. -/
def kwStopSet : List String :=
  ["acknowledgements", "dedication", "table of contents", "chapter one", "chapter 1"]

/-- The keyword / dedication scanning loop: collect paragraph texts at the
given indices until a blank line or a stop heading. -/
def collectLines (paras : List (Nat × String)) (stopSet : List String) :
    List Nat → List String
  | [] => []
  | i :: rest =>
    match paras.get? i with
    | none => []
    | some p =>
      if p.2 = "" then []
      else if pyLower p.2 ∈ stopSet then []
      else p.2 :: collectLines paras stopSet rest

/-- `len(kw_lines) == 1 and "," in kw_lines[0]`. -/
def kwIsCommaLine : List String → Bool
  | [l0] => containsComma l0
  | _ => false

/-- The recovered keyword terms: split on commas for a single
comma-separated line, else one (bullet-stripped) term per line. -/
def kwTerms (kw_lines : List String) : List String :=
  if kwIsCommaLine kw_lines then splitCommaClean (kw_lines.headD "")
  else (kw_lines.filter (fun t => pyStrip t ≠ "")).map stripKwTerm

/-- The three keyword findings for the collected lines. -/
def kw_issues_core (k : Nat) (kw_lines : List String) : List Issue :=
  (if kwIsCommaLine kw_lines then
    [⟨"CNT-KW-001", "High",
      "Key words should be listed vertically (one per line), not comma-separated.",
      kw_lines.headD "", "Paragraph " ++ toString (k + 1), Int.ofNat k⟩] else []) ++
  (if (kwTerms kw_lines).length ≠ 6 then
    [⟨"CNT-KW-002", "High", "Provide exactly six key words/phrases.",
      "Detected " ++ toString (kwTerms kw_lines).length ++ ": " ++ pyReprStrList (kwTerms kw_lines),
      "Paragraph " ++ toString (k + 1), Int.ofNat k⟩] else []) ++
  (if kwTerms kw_lines ≠ [] ∧
      (kwTerms kw_lines).map pyLower ≠ pySortedStrList ((kwTerms kw_lines).map pyLower) then
    [⟨"CNT-KW-003", "Medium", "Key words should be in alphabetical order.",
      pyReprStrList (kwTerms kw_lines), "Paragraph " ++ toString (k + 1), Int.ofNat k⟩] else [])

def kw_issues (paras : List (Nat × String)) : List Issue :=
  match find_heading_like paras ["Key Words", "Keywords"] with
  | none => []
  | some k =>
    kw_issues_core k (collectLines paras kwStopSet
      (List.range' (k + 1) (min (k + 30) paras.length - (k + 1))))

def dedStopSet : List String :=
  ["table of contents", "chapter one", "chapter 1", "acknowledgements"]

/-- `ded_lines`: the collected dedication lines. -/
def dedLines (paras : List (Nat × String)) (d : Nat) : List String :=
  collectLines paras dedStopSet
    (List.range' (d + 1) (min (d + 10) paras.length - (d + 1)))

def ded_issues (paras : List (Nat × String)) : List Issue :=
  match find_exact_heading_index paras "Dedication" with
  | none => []
  | some d =>
    if 2 < (dedLines paras d).length then
      [⟨"CNT-DED-001", "High", "Dedication should not be longer than two lines.",
        "Detected " ++ toString (dedLines paras d).length ++ " dedication lines/paragraphs.",
        "Paragraph " ++ toString (d + 1), Int.ofNat d⟩]
    else []

def check_abstract_keywords_dedication (doc : Document) : List Issue :=
  let paras := iter_paragraphs doc
  abs_issues paras ++ kw_issues paras ++ ded_issues paras

/-! ## Claim C5: a comma-separated keyword line -/

theorem lowerChar_comma {c : Char} : lowerChar c = ',' ↔ c = ',' := by
  rw [char_eq_iff_toNat, char_eq_iff_toNat]
  have h := lowerChar_or c
  have h44 : (',' : Char).toNat = 44 := by decide
  rw [h44]
  omega

theorem any_comma_map_lower (l : List Char) :
    (l.map lowerChar).any (fun c => c = ',') = l.any (fun c => c = ',') := by
  induction l with
  | nil => rfl
  | cons a t ih =>
    simp only [List.map_cons, List.any_cons, ih]
    congr 1
    simp only [decide_eq_decide]
    exact lowerChar_comma

theorem containsComma_pyLower (s : String) :
    containsComma (pyLower s) = containsComma s := by
  unfold containsComma pyLower
  exact any_comma_map_lower s.data

theorem kwStop_no_comma (s : String) (h : pyLower s ∈ kwStopSet) :
    containsComma s = false := by
  rw [← containsComma_pyLower]
  unfold kwStopSet at h
  rcases List.mem_cons.mp h with h1 | h1
  · rw [h1]; decide
  rcases List.mem_cons.mp h1 with h2 | h2
  · rw [h2]; decide
  rcases List.mem_cons.mp h2 with h3 | h3
  · rw [h3]; decide
  rcases List.mem_cons.mp h3 with h4 | h4
  · rw [h4]; decide
  rcases List.mem_cons.mp h4 with h5 | h5
  · rw [h5]; decide
  · exact absurd h5 (by simp)

theorem collect_kw_single {doc : Document} {k : Nat} {line : String}
    (hline : (iter_paragraphs doc).get? (k + 1) = some (k + 1, line))
    (hcomma : containsComma line = true)
    (hnext : ∀ p ∈ (iter_paragraphs doc).get? (k + 2), p.2 = "" ∨ pyLower p.2 ∈ kwStopSet) :
    collectLines (iter_paragraphs doc) kwStopSet
      (List.range' (k + 1) (min (k + 30) (iter_paragraphs doc).length - (k + 1))) = [line] := by
  have hlen : k + 1 < (iter_paragraphs doc).length := by
    by_contra hcon
    rw [List.get?_eq_none.mpr (by omega)] at hline
    exact absurd hline (by simp)
  have hne : line ≠ "" := by
    intro h
    rw [h] at hcomma
    exact absurd hcomma (by decide)
  have hns : pyLower line ∉ kwStopSet := by
    intro h
    rw [kwStop_no_comma line h] at hcomma
    exact absurd hcomma (by decide)
  obtain ⟨m, hm⟩ : ∃ m, min (k + 30) (iter_paragraphs doc).length - (k + 1) = m + 1 :=
    ⟨min (k + 30) (iter_paragraphs doc).length - (k + 1) - 1, by omega⟩
  rw [hm, List.range'_succ]
  rw [collectLines, hline]
  show (if line = "" then [] else if pyLower line ∈ kwStopSet then []
    else line :: collectLines (iter_paragraphs doc) kwStopSet (List.range' (k + 2) m)) = [line]
  rw [if_neg hne, if_neg hns]
  have hrest : collectLines (iter_paragraphs doc) kwStopSet (List.range' (k + 2) m) = [] := by
    cases m with
    | zero => rfl
    | succ m' =>
      have h2 : k + 2 < (iter_paragraphs doc).length := by omega
      obtain ⟨p, hp⟩ : ∃ p, (iter_paragraphs doc).get? (k + 2) = some p := by
        cases hg : (iter_paragraphs doc).get? (k + 2) with
        | none => rw [List.get?_eq_none] at hg; omega
        | some q => exact ⟨q, rfl⟩
      rw [List.range'_succ, collectLines, hp]
      show (if p.2 = "" then [] else if pyLower p.2 ∈ kwStopSet then []
        else p.2 :: collectLines (iter_paragraphs doc) kwStopSet (List.range' (k + 3) m')) = []
      rcases hnext p (by rw [hp]; rfl) with ht | ht
      · rw [if_pos ht]
      · by_cases hpe : p.2 = ""
        · rw [if_pos hpe]
        · rw [if_neg hpe, if_pos ht]
  rw [hrest]

/-- Under the hypotheses of claim C5 the keyword block of
`check_abstract_keywords_dedication` emits exactly the vertical-format
finding. -/
theorem kw_issues_comma_six {doc : Document} {k : Nat} {line : String}
    (hk : find_heading_like (iter_paragraphs doc) ["Key Words", "Keywords"] = some k)
    (hline : (iter_paragraphs doc).get? (k + 1) = some (k + 1, line))
    (hcomma : containsComma line = true)
    (h6 : (splitCommaClean line).length = 6)
    (hsort : (splitCommaClean line).map pyLower =
      pySortedStrList ((splitCommaClean line).map pyLower))
    (hnext : ∀ p ∈ (iter_paragraphs doc).get? (k + 2), p.2 = "" ∨ pyLower p.2 ∈ kwStopSet) :
    kw_issues (iter_paragraphs doc) =
      [⟨"CNT-KW-001", "High",
        "Key words should be listed vertically (one per line), not comma-separated.",
        line, "Paragraph " ++ toString (k + 1), Int.ofNat k⟩] := by
  have hcoll := collect_kw_single hline hcomma hnext
  unfold kw_issues
  rw [hk]
  show kw_issues_core k (collectLines (iter_paragraphs doc) kwStopSet
    (List.range' (k + 1) (min (k + 30) (iter_paragraphs doc).length - (k + 1)))) = _
  rw [hcoll]
  have hic : kwIsCommaLine [line] = true := by
    rw [show kwIsCommaLine [line] = containsComma line from rfl, hcomma]
  have hterms : kwTerms [line] = splitCommaClean line := by
    unfold kwTerms
    rw [hic]
    simp
  unfold kw_issues_core
  rw [hic, hterms]
  rw [if_pos (rfl : (true : Bool) = true)]
  rw [if_neg (fun hcon => hcon h6)]
  rw [if_neg (fun hcon => hcon.2 hsort)]
  simp

theorem abs_issues_rule {paras : List (Nat × String)} {iss : Issue}
    (h : iss ∈ abs_issues paras) : iss.rule_id = "CNT-ABS-001" := by
  unfold abs_issues at h
  split at h
  · exact absurd h (by simp)
  · split at h
    · rw [List.mem_singleton.mp h]
    · exact absurd h (by simp)

theorem ded_issues_rule {paras : List (Nat × String)} {iss : Issue}
    (h : iss ∈ ded_issues paras) : iss.rule_id = "CNT-DED-001" := by
  unfold ded_issues at h
  split at h
  · exact absurd h (by simp)
  · split at h
    · rw [List.mem_singleton.mp h]
    · exact absurd h (by simp)

/-- The keyword rule ids of the source: `CNT-KW-001` (vertical format),
`CNT-KW-002` (term count), `CNT-KW-003` (alphabetical order). -/
def isKwRule (i : Issue) : Bool :=
  i.rule_id == "CNT-KW-001" || i.rule_id == "CNT-KW-002" || i.rule_id == "CNT-KW-003"

/-- Claim C5: for a document whose Key Words/Keywords heading is followed
by exactly one non-blank line, that line holding six comma-joined terms
in case-insensitive alphabetical order, the keyword checks emit exactly
one finding: the High vertical-format finding `CNT-KW-001`; no term-count
(`CNT-KW-002`) and no alphabetical-order (`CNT-KW-003`) finding, because
the line is split on commas before those checks run. -/
theorem kw_comma_line_single_finding (doc : Document) (k : Nat) (line : String)
    (hk : find_heading_like (iter_paragraphs doc) ["Key Words", "Keywords"] = some k)
    (hline : (iter_paragraphs doc).get? (k + 1) = some (k + 1, line))
    (hcomma : containsComma line = true)
    (h6 : (splitCommaClean line).length = 6)
    (hsort : (splitCommaClean line).map pyLower =
      pySortedStrList ((splitCommaClean line).map pyLower))
    (hnext : ∀ p ∈ (iter_paragraphs doc).get? (k + 2), p.2 = "" ∨ pyLower p.2 ∈ kwStopSet) :
    (check_abstract_keywords_dedication doc).filter isKwRule =
      [⟨"CNT-KW-001", "High",
        "Key words should be listed vertically (one per line), not comma-separated.",
        line, "Paragraph " ++ toString (k + 1), Int.ofNat k⟩] := by
  have habs : (abs_issues (iter_paragraphs doc)).filter isKwRule = [] := by
    rw [List.filter_eq_nil_iff]
    intro a ha hpa
    have hr := abs_issues_rule ha
    simp only [isKwRule, hr] at hpa
    exact absurd hpa (by decide)
  have hded : (ded_issues (iter_paragraphs doc)).filter isKwRule = [] := by
    rw [List.filter_eq_nil_iff]
    intro a ha hpa
    have hr := ded_issues_rule ha
    simp only [isKwRule, hr] at hpa
    exact absurd hpa (by decide)
  unfold check_abstract_keywords_dedication
  rw [List.filter_append, List.filter_append]
  rw [habs, hded, kw_issues_comma_six hk hline hcomma h6 hsort hnext]
  simp [isKwRule]

/-- A document with a Keywords heading followed by one comma-separated
line of six alphabetically ordered terms. -/
def kwDocW : Document := ⟨[mkP "Keywords", mkP "ant, bee, cow, dog, eel, fox"], []⟩

theorem kw_comma_line_single_finding_witness :
    (check_abstract_keywords_dedication kwDocW).filter isKwRule =
      [⟨"CNT-KW-001", "High",
        "Key words should be listed vertically (one per line), not comma-separated.",
        "ant, bee, cow, dog, eel, fox", "Paragraph " ++ toString (0 + 1), Int.ofNat 0⟩] :=
  kw_comma_line_single_finding kwDocW 0 "ant, bee, cow, dog, eel, fox"
    (by decide) (by decide) (by decide) (by decide) (by decide)
    (by
      intro p hp
      rw [show (iter_paragraphs kwDocW).get? (0 + 2) = none from rfl] at hp
      exact absurd hp (by simp))

/-! ## Citation / reference pattern library

`PAREN_BLOCK_RE      = \(([^()]+?)\)`
`APA_AUTHOR_YEAR_RE  = ([A-Z][A-Za-z'’-]+(?:\s*&\s*[A-Z][A-Za-z'’-]+)?|[A-Z][A-Za-z'’-]+\s+et\s+al\.)\s*,\s*(\d{4})([a-b])?`  (IGNORECASE)
`NARRATIVE_RE        = \b([A-Z][A-Za-z'’-]+)\s*\(\s*(\d{4})([a-b])?\s*\)`

Each matcher is written for its concrete pattern; the character classes
are taken in the ASCII range.  Scanners that jump past a match carry a
fuel argument (one unit per character consumed, so `length + 1` fuel is
always enough).
-/

def isLatinLetter (c : Char) : Bool :=
  decide ((65 ≤ c.toNat ∧ c.toNat ≤ 90) ∨ (97 ≤ c.toNat ∧ c.toNat ≤ 122))

def isUpperAZ (c : Char) : Bool := decide (65 ≤ c.toNat ∧ c.toNat ≤ 90)

/-- The class `[A-Za-z'’-]`. -/
def isNameChar (c : Char) : Bool :=
  isLatinLetter c || c == '\'' || c == '’' || c == '-'

/-- Regex word characters (`\b` boundary test), ASCII range. -/
def isWordChar (c : Char) : Bool := isLatinLetter c || isDigitPy c || c == '_'

/-- Case-insensitive literal match (pattern in lower case); returns the
matched input characters and the rest. -/
def matchCI : List Char → List Char → Option (List Char × List Char)
  | [], cs => some ([], cs)
  | _ :: _, [] => none
  | p :: ps, c :: cs =>
    if lowerChar c = p then
      match matchCI ps cs with
      | some (m, rest) => some (c :: m, rest)
      | none => none
    else none

/-- Generic `re.search` driver: try the position matcher at every suffix,
left to right. -/
def searchAux {β : Type} (f : List Char → Option β) : List Char → Option β
  | [] => none
  | l@(_ :: rest) =>
    match f l with
    | some r => some r
    | none => searchAux f rest

/-- `^\s*([A-Z][A-Za-z'’-]+)\s*,` (`re.match` of `parse_reference_key`):
returns the captured surname characters. -/
def surnameMatch (cs : List Char) : Option (List Char) :=
  match cs.dropWhile isWsPy with
  | [] => none
  | c :: rest =>
    if isUpperAZ c then
      let run := rest.takeWhile isNameChar
      if run.isEmpty then none
      else
        match (rest.drop run.length).dropWhile isWsPy with
        | ',' :: _ => some (c :: run)
        | _ => none
    else none

/-- `\((\d{4})([a-b])?\)` at one position (for `re.search`): a four-digit
year in parentheses with optional lowercase `a`/`b` suffix.  A run of
more than four digits fails (`\d{4}` is followed by `[a-b]?` and `)`). -/
def yearAt (cs : List Char) : Option (List Char × Option Char) :=
  match cs with
  | '(' :: rest =>
    let ds := rest.takeWhile isDigitPy
    if ds.length = 4 then
      match rest.drop 4 with
      | ')' :: _ => some (ds, none)
      | s :: (')' :: _) => if s = 'a' ∨ s = 'b' then some (ds, some s) else none
      | _ => none
    else none
  | _ => none

def sufList : Option Char → List Char
  | none => []
  | some s => [s]

/-- `parse_reference_key(entry)`. -/
def parse_reference_key (entry : String) : Option (String × String) :=
  match surnameMatch entry.data with
  | none => none
  | some g1 =>
    match searchAux yearAt entry.data with
    | none => none
    | some (ds, suf) => some (normalise ⟨g1⟩, pyLower ⟨ds ++ sufList suf⟩)

/-- Index of the last `'\n'` in a list, if any. -/
def lastNlPos : List Char → Option Nat
  | [] => none
  | c :: rest =>
    match lastNlPos rest with
    | some j => some (j + 1)
    | none => if c = '\n' then some 0 else none

/-- One match of the separator `\n\s*\n` at the head of the list:
the greedy `\s*` backtracks so that the final character is the last
newline of the whitespace run.  Returns the remainder. -/
def sepMatch : List Char → Option (List Char)
  | '\n' :: rest =>
    match lastNlPos (rest.takeWhile isWsPy) with
    | some j => some (rest.drop (j + 1))
    | none => none
  | _ => none

/-- `re.split(r"\n\s*\n", text)` (keeps empty pieces; `cur` is the
current piece, reversed). -/
def splitBlankAux : Nat → List Char → List Char → List (List Char)
  | 0, cur, _ => [cur.reverse]
  | _ + 1, cur, [] => [cur.reverse]
  | fuel + 1, cur, c :: rest =>
    match sepMatch (c :: rest) with
    | some rem => cur.reverse :: splitBlankAux fuel [] rem
    | none => splitBlankAux fuel (c :: cur) rest

/-- `split_reference_entries(ref_text)`. -/
def split_reference_entries (ref_text : String) : List String :=
  (((splitBlankAux (ref_text.data.length + 1) [] ref_text.data).map
    (fun l => pyStrip ⟨l⟩)).filter (fun p => p ≠ ""))

/-- `NARRATIVE_RE` at one position (the `\b` test is done by the caller):
`[A-Z][A-Za-z'’-]+\s*\(\s*(\d{4})([a-b])?\s*\)`.  Returns the captures
and the remainder after the closing parenthesis. -/
def narrAt (cs : List Char) : Option ((List Char × List Char × Option Char) × List Char) :=
  match cs with
  | [] => none
  | c :: rest =>
    if isUpperAZ c then
      let run := rest.takeWhile isNameChar
      if run.isEmpty then none
      else
        match (rest.drop run.length).dropWhile isWsPy with
        | '(' :: r2 =>
          let r3 := r2.dropWhile isWsPy
          let ds := r3.takeWhile isDigitPy
          if ds.length = 4 then
            match r3.drop 4 with
            | s :: r5 =>
              if s = 'a' ∨ s = 'b' then
                match r5.dropWhile isWsPy with
                | ')' :: r7 => some ((c :: run, ds, some s), r7)
                | _ => none
              else
                match (s :: r5).dropWhile isWsPy with
                | ')' :: r7 => some ((c :: run, ds, none), r7)
                | _ => none
            | [] => none
          else none
        | _ => none
    else none

/-- `NARRATIVE_RE.finditer`: scan left to right with a word-boundary
flag, resuming after each match (whose last character is `)`, a
non-word character). -/
def narrScan : Nat → Bool → List Char → List (String × String)
  | 0, _, _ => []
  | _ + 1, _, [] => []
  | fuel + 1, prevWord, c :: rest =>
    if prevWord then narrScan fuel (isWordChar c) rest
    else
      match narrAt (c :: rest) with
      | some ((name, ds, suf), rem) =>
        (normalise ⟨name⟩, pyLower ⟨ds ++ sufList suf⟩) :: narrScan fuel false rem
      | none => narrScan fuel (isWordChar c) rest

/-- `PAREN_BLOCK_RE.finditer`: the lazy `[^()]+?` takes the characters up
to the next parenthesis, which must be `)` with at least one character
between.  On failure the scan resumes at the next character. -/
def parenScan : Nat → List Char → List (List Char)
  | 0, _ => []
  | _ + 1, [] => []
  | fuel + 1, '(' :: rest =>
    let inner := rest.takeWhile (fun c => ¬(c = '(' ∨ c = ')'))
    match rest.drop inner.length with
    | ')' :: rest2 =>
      if inner.isEmpty then parenScan fuel rest else inner :: parenScan fuel rest2
    | _ => parenScan fuel rest
  | fuel + 1, _ :: rest => parenScan fuel rest

/-- `[A-Z][A-Za-z'’-]+` with IGNORECASE (so the first character is any
ASCII letter): returns the token and the rest. -/
def nameTok (cs : List Char) : Option (List Char × List Char) :=
  match cs with
  | [] => none
  | c :: rest =>
    if isLatinLetter c then
      let run := rest.takeWhile isNameChar
      if run.isEmpty then none else some (c :: run, rest.drop run.length)
    else none

/-- `\s*,\s*(\d{4})([a-b])?` with IGNORECASE (the pattern tail of
`APA_AUTHOR_YEAR_RE`; nothing follows `([a-b])?`, so a longer digit run
still matches on its first four digits). -/
def ayTail (cs : List Char) : Option (List Char × Option Char) :=
  match (cs.dropWhile isWsPy) with
  | ',' :: r =>
    let r2 := r.dropWhile isWsPy
    let ds := r2.takeWhile isDigitPy
    if ds.length < 4 then none
    else
      let suf := match r2.drop 4 with
        | s :: _ => if s = 'a' ∨ s = 'b' ∨ s = 'A' ∨ s = 'B' then some s else none
        | [] => none
      some (r2.take 4, suf)
  | _ => none

/-- `APA_AUTHOR_YEAR_RE` at one position.  The alternation tries the
co-author form first (its optional `&` group greedily), then the
`et al.` form; group 1 is the matched author text. -/
def ayAt (cs : List Char) : Option (List Char × List Char × Option Char) :=
  match nameTok cs with
  | none => none
  | some (n1, r1) =>
    let amp :=
      let ws1 := r1.takeWhile isWsPy
      match r1.drop ws1.length with
      | '&' :: r2 =>
        let ws2 := r2.takeWhile isWsPy
        match nameTok (r2.drop ws2.length) with
        | some (n2, r3) =>
          match ayTail r3 with
          | some (y, s) => some (n1 ++ ws1 ++ '&' :: (ws2 ++ n2), y, s)
          | none => none
        | none => none
      | _ => none
    match amp with
    | some res => some res
    | none =>
      match ayTail r1 with
      | some (y, s) => some (n1, y, s)
      | none =>
        let ws1 := r1.takeWhile isWsPy
        if ws1.isEmpty then none
        else
          match matchCI "et".data (r1.drop ws1.length) with
          | none => none
          | some (met, r2) =>
            let ws2 := r2.takeWhile isWsPy
            if ws2.isEmpty then none
            else
              match matchCI "al".data (r2.drop ws2.length) with
              | none => none
              | some (mal, r3) =>
                match r3 with
                | '.' :: r4 =>
                  match ayTail r4 with
                  | some (y, s) =>
                    some (n1 ++ ws1 ++ met ++ ws2 ++ mal ++ ['.'], y, s)
                  | none => none
                | _ => none

/-- Python `s.split(sep)` for a one-character separator (keeps empty
pieces). -/
def splitOnChar (sep : Char) : List Char → List (List Char)
  | [] => [[]]
  | c :: cs =>
    let r := splitOnChar sep cs
    if c = sep then [] :: r
    else
      match r with
      | [] => [[c]]
      | h :: t => (c :: h) :: t

/-- Python `s.replace(pat, "")` (non-overlapping, left to right). -/
def removeSubAll (pat : List Char) : Nat → List Char → List Char
  | 0, l => l
  | _ + 1, [] => []
  | fuel + 1, c :: rest =>
    if pat.isPrefixOf (c :: rest) then removeSubAll pat fuel ((c :: rest).drop pat.length)
    else c :: removeSubAll pat fuel rest

/-- `lead = mm.group(1).split("&")[0].replace("et al.", "").strip()`. -/
def ayLead (g1 : List Char) : String :=
  let before := (splitOnChar '&' g1).headD []
  pyStrip ⟨removeSubAll "et al.".data (before.length + 1) before⟩

/-- `extract_intext_keys(full_text)`: narrative keys first, then the keys
of the author–year patterns inside parenthesised blocks split on `;`. -/
def extract_intext_keys (full_text : String) : List (String × String) :=
  narrScan (full_text.data.length + 1) false full_text.data ++
  (parenScan (full_text.data.length + 1) full_text.data).flatMap (fun inside =>
    ((splitOnChar ';' inside).map (fun c => pyStrip ⟨c⟩)).filterMap (fun chunk =>
      match searchAux ayAt chunk.data with
      | none => none
      | some (g1, y, suf) =>
        some (normalise (ayLead g1), pyLower ⟨y ++ sufList suf⟩)))

/-- `\[\s*\d+\s*\]` at one position. -/
def numCiteAt (cs : List Char) : Option Unit :=
  match cs with
  | '[' :: rest =>
    let r2 := rest.dropWhile isWsPy
    let ds := r2.takeWhile isDigitPy
    if ds.isEmpty then none
    else
      match (r2.drop ds.length).dropWhile isWsPy with
      | ']' :: _ => some ()
      | _ => none
  | _ => none

/-- `\bibid\.|\bop\. cit\.` (IGNORECASE) found anywhere. -/
def ibidScan : Bool → List Char → Bool
  | _, [] => false
  | prevWord, c :: rest =>
    (!prevWord &&
      ((matchCI "ibid.".data (c :: rest)).isSome ||
       (matchCI "op. cit.".data (c :: rest)).isSome)) ||
    ibidScan (isWordChar c) rest

def check_apa_only_citation_style (full_text : String) : List Issue :=
  (if (searchAux numCiteAt full_text.data).isSome then
    [⟨"APA-CIT-001", "High",
      "Numeric citation style detected (e.g., [12]). Use APA author–date only.",
      "Found [number].", "Main text", 0⟩] else []) ++
  (if ibidScan false full_text.data then
    [⟨"APA-CIT-002", "Medium",
      "Non-APA citation marker detected (ibid./op. cit.). Use APA author–date only.",
      "Found ibid./op. cit.", "Main text", 0⟩] else [])

/-! ## `check_references` -/

/-- The insertion-ordered count dict `ref_keys` as an association list:
`ref_keys[k] = ref_keys.get(k, 0) + 1`. -/
def addKey (acc : List ((String × String) × Nat)) (k : String × String) :
    List ((String × String) × Nat) :=
  match acc with
  | [] => [(k, 1)]
  | (k', n) :: rest => if k' = k then (k', n + 1) :: rest else (k', n) :: addKey rest k

def buildRefKeys (entries : List String) : List ((String × String) × Nat) :=
  entries.foldl (fun acc e =>
    match parse_reference_key e with
    | none => acc
    | some k => addKey acc k) []

/-- `", ".join([f"{a} {y}" for a, y in l[:10]])` plus the ellipsis
marker when more than ten entries exist. -/
def exampleStr (l : List (String × String)) : String :=
  String.intercalate ", " ((l.take 10).map (fun k => k.1 ++ " " ++ k.2)) ++
    (if 10 < l.length then " ..." else "")

/-- `", ".join(...)` without the ellipsis marker (the `APA-REF-010`
evidence). -/
def exampleStrNoDots (l : List (String × String)) : String :=
  String.intercalate ", " ((l.take 10).map (fun k => k.1 ++ " " ++ k.2))

/-- The main body of `check_references` after both early returns. -/
def check_references_body (paras : List (Nat × String)) (ref_idx : Nat) : List Issue :=
  let main_text := extract_text_between paras 0 (some ref_idx)
  let ref_text := extract_text_between paras (ref_idx + 1) none
  let entries := split_reference_entries ref_text
  let refKeys := buildRefKeys entries
  let unparsed := entries.countP (fun e => (parse_reference_key e).isNone)
  let intext := extract_intext_keys main_text
  let missing := intext.filter (fun k => ¬ refKeys.any (fun kv => kv.1 = k))
  let uncited := (refKeys.map (fun kv => kv.1)).filter (fun k => k ∉ intext)
  let dups := (refKeys.filter (fun kv => 1 < kv.2)).map (fun kv => kv.1)
  (if 0 < unparsed then
    [⟨"APA-REF-003", "Medium",
      "Some reference entries could not be parsed as APA author–date. Check APA consistency.",
      "Unparsed: " ++ toString unparsed ++ "/" ++ toString entries.length,
      "References", Int.ofNat ref_idx⟩] else []) ++
  check_apa_only_citation_style main_text ++
  (if intext.isEmpty then
    [⟨"APA-CIT-010", "High", "No APA in-text citations detected in main text.",
      "No matches like (Surname, 2020) or Surname (2020).", "Main text", 0⟩] else []) ++
  (if ¬ missing.isEmpty then
    [⟨"APA-MATCH-001", "High", "Some in-text citations have no matching reference entry.",
      exampleStr missing, "Citations vs References", Int.ofNat ref_idx⟩] else []) ++
  (if ¬ uncited.isEmpty then
    [⟨"APA-MATCH-002", "Medium", "Some reference entries do not appear to be cited in text.",
      exampleStr uncited, "Citations vs References", Int.ofNat ref_idx⟩] else []) ++
  (if ¬ dups.isEmpty then
    [⟨"APA-REF-010", "Medium",
      "Duplicate references detected (same lead author and year). Consider duplicates or missing a/b suffix.",
      exampleStrNoDots dups, "References", Int.ofNat ref_idx⟩] else [])

def check_references (doc : Document) : List Issue :=
  let paras := iter_paragraphs doc
  match find_exact_heading_index paras "References" with
  | none =>
    [⟨"APA-REF-001", "High", "References section not found.",
      "Heading 'References' not found.", "Back matter", 0⟩]
  | some ref_idx =>
    if pyStrip (extract_text_between paras (ref_idx + 1) none) = "" then
      [⟨"APA-REF-002", "High", "References section is present but empty.",
        "No entries after 'References'.", "References", Int.ofNat ref_idx⟩]
    else check_references_body paras ref_idx

/-! ## Claim C6: a wholly absent References section -/

/-- Claim C6: when no paragraph's normalized (stripped, lower-cased) text
equals `references`, `check_references` returns exactly the single
terminal High `APA-REF-001` finding and performs none of its other
checks. -/
theorem references_missing_single_finding (doc : Document)
    (h : ∀ p ∈ doc.paragraphs, pyLower (pyStrip p.text) ≠ "references") :
    check_references doc =
      [⟨"APA-REF-001", "High", "References section not found.",
        "Heading 'References' not found.", "Back matter", 0⟩] := by
  have hf : find_exact_heading_index (iter_paragraphs doc) "References" = none := by
    unfold find_exact_heading_index
    rw [List.find?_eq_none.mpr ?_]
    · rfl
    · intro it hit
      have hmem := @iter_paragraphs_mem doc it.1 it.2 hit
      rw [List.get?_map] at hmem
      cases hg : doc.paragraphs.get? it.1 with
      | none => rw [hg] at hmem; exact absurd hmem (by simp)
      | some p =>
        rw [hg] at hmem
        simp only [Option.map_some', Option.some.injEq] at hmem
        have hp : p ∈ doc.paragraphs := List.get?_mem hg
        have := h p hp
        rw [hmem] at this
        simp only [beq_iff_eq]
        rw [show pyLower (pyStrip "References") = "references" from rfl]
        exact this
  unfold check_references
  show (match find_exact_heading_index (iter_paragraphs doc) "References" with
    | none => [(⟨"APA-REF-001", "High", "References section not found.",
        "Heading 'References' not found.", "Back matter", 0⟩ : Issue)]
    | some ref_idx =>
      if pyStrip (extract_text_between (iter_paragraphs doc) (ref_idx + 1) none) = "" then
        [⟨"APA-REF-002", "High", "References section is present but empty.",
          "No entries after 'References'.", "References", Int.ofNat ref_idx⟩]
      else check_references_body (iter_paragraphs doc) ref_idx) = _
  rw [hf]

/-- A one-paragraph document without a References heading. -/
def noRefDocW : Document := ⟨[mkP "Hello world"], []⟩

theorem references_missing_single_finding_witness :
    check_references noRefDocW =
      [⟨"APA-REF-001", "High", "References section not found.",
        "Heading 'References' not found.", "Back matter", 0⟩] :=
  references_missing_single_finding noRefDocW (by decide)

/-! ## `check_formatting` (rule group C)

Margins are `ℚ` inches; the float tolerances `0.05`, `0.5`, `0.15` of
the source are the rationals `1/20`, `1/2`, `3/20`, and the percent
rendering of the evidence string uses round-half-up (the float rendering
of the source differs only on exact ties). -/

def badMargin (s : DocSection) : Bool :=
  decide (1/20 < |s.left_margin - 2| ∨ 1/20 < |s.right_margin - 1| ∨
    1/20 < |s.top_margin - 1| ∨ 1/20 < |s.bottom_margin - 1|)

/-- Two-decimal rendering of a rational (for `f"{x:.2f}"`). -/
def fmtQ2 (q : ℚ) : String :=
  let n : Int := Int.floor (q * 100 + 1/2)
  let a := n.natAbs
  (if n < 0 then "-" else "") ++ toString (a / 100) ++ "." ++
    (if a % 100 < 10 then "0" else "") ++ toString (a % 100)

def margin_issues (sections : List DocSection) : List Issue :=
  match sections.enum.find? (fun p => badMargin p.2) with
  | none => []
  | some (sidx, s) =>
    [⟨"FMT-MARG-001", "High", "Margins must be 2-inch left and 1-inch top/bottom/right.",
      "Section " ++ toString (sidx + 1) ++ " margins (in): left=" ++ fmtQ2 s.left_margin ++
        ", right=" ++ fmtQ2 s.right_margin ++ ", top=" ++ fmtQ2 s.top_margin ++
        ", bottom=" ++ fmtQ2 s.bottom_margin,
      "Document sections: " ++ toString (sidx + 1), 0⟩]

/-- The run-sampling loop (`sampled`, `size_bad`, `font_bad`); the Boolean
result signals the `sampled >= 500` break. -/
def scanRuns : List DocRun → Nat × Nat × Nat → (Nat × Nat × Nat) × Bool
  | [], st => (st, false)
  | r :: rest, (sampled, szb, fnb) =>
    if pyStrip r.text = "" then scanRuns rest (sampled, szb, fnb)
    else
      let sampled' := sampled + 1
      let szb' := szb + (match r.fontSizePt with
        | some q => if 1/2 < |q - 12| then 1 else 0
        | none => 0)
      let fnb' := fnb + (match r.fontName with
        | some nm => if normalise nm ≠ normalise "Times New Roman" then 1 else 0
        | none => 0)
      if 500 ≤ sampled' then ((sampled', szb', fnb'), true)
      else scanRuns rest (sampled', szb', fnb')

def scanParas : List DocParagraph → Nat × Nat × Nat → Nat × Nat × Nat
  | [], st => st
  | p :: rest, st =>
    if pyStrip p.text = "" then scanParas rest st
    else
      match scanRuns p.runs st with
      | (st', true) => st'
      | (st', false) => scanParas rest st'

def fontCounts (doc : Document) : Nat × Nat × Nat :=
  scanParas (doc.paragraphs.take 4000) (0, 0, 0)

def font_issues (doc : Document) : List Issue :=
  match fontCounts doc with
  | (sampled, size_bad, font_bad) =>
    (if 40 < size_bad then
      [⟨"FMT-FONT-001", "High",
        "Font size should be 12 throughout (exceptions only for technical graphics).",
        "Sample check: " ++ toString size_bad ++ " runs out of " ++ toString sampled ++
          " differ from size 12.", "Main text sample", 0⟩] else []) ++
    (if 80 < font_bad then
      [⟨"FMT-FONT-002", "Medium", "Font should preferably be Times New Roman throughout.",
        "Sample check: " ++ toString font_bad ++ " runs out of " ++ toString sampled ++
          " are not Times New Roman.", "Main text sample", 0⟩] else [])

/-- The paragraph-format loop (`checked`, `spacing_bad`, `justify_bad`);
only explicit `float` multipliers count for spacing, only explicit
non-justify (`!= 3`) alignments for justification. -/
def spacingCounts (paras : List DocParagraph) : Nat × Nat × Nat :=
  paras.foldl (fun st p =>
    if pyStrip p.text = "" then st
    else
      (st.1 + 1,
       st.2.1 + (match p.lineSpacing with
        | some (.mult q) => if 3/20 < |q - 2| then 1 else 0
        | _ => 0),
       st.2.2 + (match p.alignment with
        | some a => if a ≠ 3 then 1 else 0
        | none => 0))) (0, 0, 0)

def spacing_issues (doc : Document) : List Issue :=
  match spacingCounts (doc.paragraphs.take 3000) with
  | (checked, spacing_bad, justify_bad) =>
    (if 30 < spacing_bad then
      [⟨"FMT-SPC-001", "High",
        "Double spacing must be used throughout (long tables may be single-spaced).",
        "Detected " ++ toString spacing_bad ++
          " paragraphs with explicit non-double line spacing in a sample of " ++
          toString checked ++ ".", "Main text sample", 0⟩] else []) ++
    (if 60 < justify_bad then
      [⟨"FMT-ALN-001", "Medium", "Text should be justified on both left and right margins.",
        "Detected " ++ toString justify_bad ++
          " paragraphs with explicit non-justified alignment in a sample of " ++
          toString checked ++ ".", "Main text sample", 0⟩] else [])

def check_formatting (doc : Document) : List Issue :=
  margin_issues doc.sections ++ font_issues doc ++ spacing_issues doc

/-! ## `check_chapter_one_template` (rule group B) -/

def required_subheads : List String :=
  ["Background of the Study", "Statement of the Problem", "Purpose of the Study",
   "Research Objectives", "Research Questions", "Significance of the Study",
   "Limitations of the Study", "Delimitation of the Study", "Structure of the Thesis"]

/-- `missing`: the expected sub-headings of Chapter One that do not occur
(case-insensitively, met ignoring blank paragraphs) in the span from
Chapter One to Chapter Two (or the next 250 paragraphs). -/
def ch1Missing (paras : List (Nat × String)) (ch1 : Nat) : List String :=
  let ch2 := find_heading_like paras ["Chapter Two", "CHAPTER TWO", "Chapter 2", "CHAPTER 2"]
  let e := match ch2 with
    | some c2 => if ch1 < c2 then c2 else min paras.length (ch1 + 250)
    | none => min paras.length (ch1 + 250)
  let window := (paras.drop ch1).take (e - ch1)
  required_subheads.filter (fun h =>
    ¬ window.any (fun it => it.2 ≠ "" ∧ pyLower it.2 = pyLower h))

def check_chapter_one_template (doc : Document) : List Issue :=
  let paras := iter_paragraphs doc
  match find_heading_like paras ["Chapter One", "CHAPTER ONE", "Chapter 1", "CHAPTER 1"] with
  | none => []
  | some ch1 =>
    if ch1Missing paras ch1 ≠ [] then
      [⟨"CH1-TPL-001", "High",
        "Chapter One is missing expected sub-headings used in the approved structure.",
        "Missing: " ++ pyReprStrList (ch1Missing paras ch1),
        "Chapter One (around paragraph " ++ toString (ch1 + 1) ++ ")", Int.ofNat ch1⟩]
    else []

/-! ## `check_similarity_report_mention` (rule group E) -/

/-- Python `pat in hay` (substring test). -/
def hasInfix : List Char → List Char → Bool
  | hay, pat =>
    pat.isPrefixOf hay ||
      (match hay with
       | [] => false
       | _ :: t => hasInfix t pat)

/-- `"\n".join([p.text for p in doc.paragraphs if p.text]).lower()`. -/
def simText (doc : Document) : String :=
  pyLower (String.intercalate "\n"
    ((doc.paragraphs.map (fun p => p.text)).filter (fun t => t ≠ "")))

def check_similarity_report_mention (doc : Document) : List Issue :=
  if ¬ hasInfix (simText doc).data "similarity index report".data ∧
      ¬ hasInfix (simText doc).data "turnitin".data then
    [⟨"ETH-SIM-001", "Medium",
      "No mention of Similarity Index Report found. Ensure it is submitted/attached where required.",
      "Did not find 'Similarity Index Report' or 'Turnitin'.", "Document-wide", 0⟩]
  else []

/-! ## `run_checks` -/

structure RunMeta where
  issues_total : Nat
  issues_high : Nat
  issues_medium : Nat
  issues_low : Nat
deriving DecidableEq

def run_checks_issues (doc : Document) (degree_type : String) : List Issue :=
  check_structure doc degree_type ++
  check_abstract_keywords_dedication doc ++
  check_chapter_one_template doc ++
  check_formatting doc ++
  check_serial (detect_table_figure_labels doc).tables "Table" "APA-TBL-001" ++
  check_serial (detect_table_figure_labels doc).figures "Figure" "APA-FIG-001" ++
  check_lists doc (detect_table_figure_labels doc) ++
  check_references doc ++
  check_similarity_report_mention doc

def run_checks (doc : Document) (degree_type : String) : List Issue × RunMeta :=
  let issues := run_checks_issues doc degree_type
  (issues,
   ⟨issues.length,
    issues.countP (fun i => i.severity == "High"),
    issues.countP (fun i => i.severity == "Medium"),
    issues.countP (fun i => i.severity == "Low")⟩)

/-! ## Claim C10: no evaluator ever emits a `Low` finding -/

/-- Every `Issue` literal of the source has severity `High` or `Medium`. -/
def sevOK (i : Issue) : Prop := i.severity = "High" ∨ i.severity = "Medium"

theorem sevOK_ite {c : Prop} [Decidable c] {x : Issue} (hx : sevOK x) :
    ∀ i ∈ (if c then [x] else []), sevOK i := by
  intro i hi
  obtain ⟨he, _⟩ := mem_ite_singleton hi
  rw [he]
  exact hx

theorem sevOK_append {l1 l2 : List Issue} (h1 : ∀ i ∈ l1, sevOK i)
    (h2 : ∀ i ∈ l2, sevOK i) : ∀ i ∈ l1 ++ l2, sevOK i := by
  intro i hi
  rcases List.mem_append.mp hi with h | h
  · exact h1 i h
  · exact h2 i h

theorem sevOK_structure (doc : Document) (degree_type : String) :
    ∀ i ∈ check_structure doc degree_type, sevOK i := by
  unfold check_structure
  refine sevOK_append (sevOK_append (sevOK_append (sevOK_append (sevOK_append
    ?_ ?_) ?_) ?_) ?_) ?_
  · intro i hi
    obtain ⟨a, _, ha⟩ := List.mem_map.mp hi
    rw [← ha]
    exact Or.inl rfl
  · exact sevOK_ite (Or.inl rfl)
  · intro i hi
    simp only [chapter_issues] at hi
    split at hi
    · rw [List.mem_singleton.mp hi]
      exact Or.inl rfl
    · split at hi
      · rw [List.mem_singleton.mp hi]
        exact Or.inl rfl
      · exact absurd hi (by simp)
  · exact sevOK_ite (Or.inl rfl)
  · exact sevOK_ite (Or.inr rfl)
  · intro i hi
    unfold phd_issues at hi
    split at hi
    · split at hi
      · rw [List.mem_singleton.mp hi]
        exact Or.inr rfl
      · exact absurd hi (by simp)
    · exact absurd hi (by simp)

theorem sevOK_abstract_kw_ded (doc : Document) :
    ∀ i ∈ check_abstract_keywords_dedication doc, sevOK i := by
  unfold check_abstract_keywords_dedication
  refine sevOK_append (sevOK_append ?_ ?_) ?_
  · intro i hi
    unfold abs_issues at hi
    split at hi
    · exact absurd hi (by simp)
    · split at hi
      · rw [List.mem_singleton.mp hi]
        exact Or.inl rfl
      · exact absurd hi (by simp)
  · intro i hi
    unfold kw_issues at hi
    split at hi
    · exact absurd hi (by simp)
    · revert hi
      unfold kw_issues_core
      refine sevOK_append (sevOK_append ?_ ?_) ?_ i
      · exact sevOK_ite (Or.inl rfl)
      · exact sevOK_ite (Or.inl rfl)
      · exact sevOK_ite (Or.inr rfl)
  · intro i hi
    unfold ded_issues at hi
    split at hi
    · exact absurd hi (by simp)
    · split at hi
      · rw [List.mem_singleton.mp hi]
        exact Or.inl rfl
      · exact absurd hi (by simp)

theorem sevOK_ch1 (doc : Document) : ∀ i ∈ check_chapter_one_template doc, sevOK i := by
  intro i hi
  simp only [check_chapter_one_template] at hi
  split at hi
  · exact absurd hi (by simp)
  · split at hi
    · rw [List.mem_singleton.mp hi]
      exact Or.inl rfl
    · exact absurd hi (by simp)

theorem sevOK_formatting (doc : Document) : ∀ i ∈ check_formatting doc, sevOK i := by
  unfold check_formatting
  refine sevOK_append (sevOK_append ?_ ?_) ?_
  · intro i hi
    unfold margin_issues at hi
    split at hi
    · exact absurd hi (by simp)
    · rw [List.mem_singleton.mp hi]
      exact Or.inl rfl
  · intro i hi
    unfold font_issues at hi
    revert hi
    refine sevOK_append ?_ ?_ i
    · exact sevOK_ite (Or.inl rfl)
    · exact sevOK_ite (Or.inr rfl)
  · intro i hi
    unfold spacing_issues at hi
    revert hi
    refine sevOK_append ?_ ?_ i
    · exact sevOK_ite (Or.inl rfl)
    · exact sevOK_ite (Or.inr rfl)

theorem sevOK_serial (items : List CapLabel) (kind rule_id : String) :
    ∀ i ∈ check_serial items kind rule_id, sevOK i := by
  unfold check_serial
  match items with
  | [] => simp
  | it0 :: rest =>
    refine sevOK_append (sevOK_append ?_ ?_) ?_ <;> exact sevOK_ite (Or.inl rfl)

theorem sevOK_lists (doc : Document) (d : DetectedLabels) :
    ∀ i ∈ check_lists doc d, sevOK i := by
  unfold check_lists
  refine sevOK_append (sevOK_append ?_ ?_) ?_
  · exact sevOK_ite (Or.inl rfl)
  · exact sevOK_ite (Or.inl rfl)
  · intro i hi
    obtain ⟨b, _, hb⟩ := List.mem_map.mp hi
    rw [← hb]
    exact Or.inl rfl

theorem sevOK_citation_style (full_text : String) :
    ∀ i ∈ check_apa_only_citation_style full_text, sevOK i := by
  unfold check_apa_only_citation_style
  refine sevOK_append ?_ ?_
  · exact sevOK_ite (Or.inl rfl)
  · exact sevOK_ite (Or.inr rfl)

theorem sevOK_references_body (paras : List (Nat × String)) (ref_idx : Nat) :
    ∀ i ∈ check_references_body paras ref_idx, sevOK i := by
  unfold check_references_body
  refine sevOK_append (sevOK_append (sevOK_append (sevOK_append (sevOK_append
    ?_ ?_) ?_) ?_) ?_) ?_
  · exact sevOK_ite (Or.inr rfl)
  · exact sevOK_citation_style _
  · exact sevOK_ite (Or.inl rfl)
  · exact sevOK_ite (Or.inl rfl)
  · exact sevOK_ite (Or.inr rfl)
  · exact sevOK_ite (Or.inr rfl)

theorem sevOK_references (doc : Document) : ∀ i ∈ check_references doc, sevOK i := by
  intro i hi
  simp only [check_references] at hi
  split at hi
  · rw [List.mem_singleton.mp hi]
    exact Or.inl rfl
  · split at hi
    · rw [List.mem_singleton.mp hi]
      exact Or.inl rfl
    · exact sevOK_references_body _ _ i hi

theorem sevOK_similarity (doc : Document) :
    ∀ i ∈ check_similarity_report_mention doc, sevOK i := by
  unfold check_similarity_report_mention
  exact sevOK_ite (Or.inr rfl)

set_option maxHeartbeats 1000000 in
theorem sevOK_run_checks (doc : Document) (degree_type : String) :
    ∀ i ∈ run_checks_issues doc degree_type, sevOK i := by
  unfold run_checks_issues
  refine sevOK_append (sevOK_append (sevOK_append (sevOK_append (sevOK_append
    (sevOK_append (sevOK_append (sevOK_append ?_ ?_) ?_) ?_) ?_) ?_) ?_) ?_) ?_
  · exact sevOK_structure doc degree_type
  · exact sevOK_abstract_kw_ded doc
  · exact sevOK_ch1 doc
  · exact sevOK_formatting doc
  · exact sevOK_serial _ _ _
  · exact sevOK_serial _ _ _
  · exact sevOK_lists _ _
  · exact sevOK_references doc
  · exact sevOK_similarity doc

theorem length_eq_high_add_medium {l : List Issue} (h : ∀ i ∈ l, sevOK i) :
    l.length = l.countP (fun i => i.severity == "High") +
      l.countP (fun i => i.severity == "Medium") := by
  induction l with
  | nil => rfl
  | cons a t ih =>
    rw [List.length_cons, List.countP_cons, List.countP_cons,
      ih (fun i hi => h i (List.mem_cons_of_mem a hi))]
    rcases h a (List.mem_cons_self a t) with ha | ha <;> rw [ha] <;> simp <;> omega

theorem countP_low_eq_zero {l : List Issue} (h : ∀ i ∈ l, sevOK i) :
    l.countP (fun i => i.severity == "Low") = 0 := by
  rw [List.countP_eq_zero]
  intro a ha
  rcases h a ha with h' | h' <;> rw [h'] <;> decide

theorem run_checks_snd (doc : Document) (degree_type : String) :
    (run_checks doc degree_type).2 =
      ⟨(run_checks_issues doc degree_type).length,
       (run_checks_issues doc degree_type).countP (fun i => i.severity == "High"),
       (run_checks_issues doc degree_type).countP (fun i => i.severity == "Medium"),
       (run_checks_issues doc degree_type).countP (fun i => i.severity == "Low")⟩ := rfl

set_option maxHeartbeats 2000000 in
/-- Claim C10: `run_checks` never produces a `Low`-severity finding: the
summary's `issues_low` is always `0` and `issues_total` equals
`issues_high + issues_medium`, for every document and degree type. -/
theorem run_checks_no_low (doc : Document) (degree_type : String) :
    (run_checks doc degree_type).2.issues_low = 0 ∧
    (run_checks doc degree_type).2.issues_total =
      (run_checks doc degree_type).2.issues_high +
        (run_checks doc degree_type).2.issues_medium := by
  have h := sevOK_run_checks doc degree_type
  rw [run_checks_snd]
  constructor
  · exact countP_low_eq_zero h
  · exact length_eq_high_add_medium h

/-! ### Word comment injector: `add_word_comments` on the OOXML parts -/

/-- One child node of a `w:p` element in `word/document.xml`: an ordinary
text run `w:r`, a `w:commentRangeStart`/`w:commentRangeEnd` marker, a
comment-reference run (also a `w:r` element, holding `w:commentReference`),
or any other element. -/
inductive PNode where
  | run (text : String)
  | rangeStart (id : Nat)
  | rangeEnd (id : Nat)
  | refRun (id : Nat)
  | other
deriving DecidableEq

/-- Whether `p.xpath("./w:r")` matches the node: both ordinary runs and
comment-reference runs are `w:r` elements. -/
def isRunNode : PNode → Bool
  | PNode.run _ => true
  | PNode.refRun _ => true
  | _ => false

/-- One `w:comment` entry of `word/comments.xml`. -/
structure Wcomment where
  id : Nat
  body : String
deriving DecidableEq

/-- One `Relationship` element of `word/_rels/document.xml.rels`. -/
structure Rel where
  rid : String
  typ : String
  target : String
deriving DecidableEq

/-- The parts of the DOCX container that `add_word_comments` reads and
writes: the body paragraphs (child-node lists), the comments part (absent
when `word/comments.xml` is not in the zip), and the document relationships. -/
structure DocxState where
  paras : List (List PNode)
  comments : Option (List Wcomment)
  rels : List Rel
deriving DecidableEq

/-- Python `max(0, iss.anchor_paragraph_index)`, the `by_p` dict key. -/
def issueKey (iss : Issue) : Nat :=
  match iss.anchor_paragraph_index with
  | Int.ofNat n => n
  | Int.negSucc _ => 0

/-- Python `by_p.setdefault(key, []).append(iss)` on an insertion-ordered
dict represented as an association list. -/
def addToGroups : List (Nat × List Issue) → Nat → Issue → List (Nat × List Issue)
  | [], k, iss => [(k, [iss])]
  | (k', l) :: rest, k, iss =>
      if k' = k then (k', l ++ [iss]) :: rest
      else (k', l) :: addToGroups rest k iss

/-- The grouping `by_p` of the issues by clamped anchor index, keys in
first-occurrence order. -/
def buildGroups (issues : List Issue) : List (Nat × List Issue) :=
  issues.foldl (fun gs iss => addToGroups gs (issueKey iss) iss) []

/-- Python `max([int(x) for x in existing_ids], default=-1) + 1`: the first
free comment id of an existing comments part. -/
def nextCommentId (cs : List Wcomment) : Nat :=
  match cs with
  | [] => 0
  | _ => pyMaxList (cs.map (fun c => c.id)) + 1

/-- Python `re.match(r"rId(\d+)", rid)`: the value of the captured digit
run, when the string starts with `rId` followed by at least one digit. -/
def rIdNum? (s : String) : Option Nat :=
  match s.data with
  | 'r' :: 'I' :: 'd' :: rest =>
      if (rest.takeWhile isDigitPy).isEmpty then none
      else some (digitsToNat (rest.takeWhile isDigitPy))
  | _ => none

/-- Python `any(r.get("Type", "").endswith("/comments") for r in rels)`. -/
def hasCommentsRel (rels : List Rel) : Bool :=
  rels.any (fun r => List.isSuffixOf ("/comments".data) r.typ.data)

/-- The numeric suffix of the new relationship id: `max + 1` over the
existing `rIdN` ids, or `1` when none parse. -/
def newRelId (rels : List Rel) : Nat :=
  match rels.filterMap (fun r => rIdNum? r.rid) with
  | [] => 1
  | n :: t => pyMaxList (n :: t) + 1

/-- Append the relationship to the comments part when it is absent. -/
def relsWithComments (rels : List Rel) : List Rel :=
  if hasCommentsRel rels then rels
  else
    rels ++ [⟨"rId" ++ toString (newRelId rels),
      "http://schemas.openxmlformats.org/officeDocument/2006/relationships/comments",
      "comments.xml"⟩]

/-- Python `f"[{sev}] {rule}\n{message}\nEvidence: ...\nWhere: ..."`
(`make_comment_text`). -/
def make_comment_text (iss : Issue) : String :=
  "[" ++ iss.severity ++ "] " ++ iss.rule_id ++ "\n" ++ iss.message ++
    "\nEvidence: " ++ iss.evidence ++ "\nWhere: " ++ iss.location_hint

/-- Python `list.insert(i, a)` / lxml `Element.insert`: an index past the
end appends. -/
def pyInsert (l : List PNode) (i : Nat) (a : PNode) : List PNode :=
  l.take i ++ a :: l.drop i

/-- One issue's anchoring edits on a paragraph's children, where `fr` is
the current index of the first run: the range start goes in at `fr`
(pushing the first run to `fr + 1`), the range end at `index(first_r) + 2 =
fr + 3` (clamped by the insert), and the reference run right after the
range end. Returns the new children and the first run's new index. -/
def insertMarkers (cs : List PNode) (fr : Nat) (cid : Nat) : List PNode × Nat :=
  (pyInsert
      (pyInsert (pyInsert cs fr (PNode.rangeStart cid)) (fr + 3) (PNode.rangeEnd cid))
      (min (fr + 3) (cs.length + 1) + 1) (PNode.refRun cid),
    fr + 1)

/-- Python `runs = p.xpath("./w:r")`: reuse the first run, else append an
empty one; returns the children and the first run's index. -/
def ensureRun (cs : List PNode) : List PNode × Nat :=
  match cs.findIdx? isRunNode with
  | some i => (cs, i)
  | none => (cs ++ [PNode.run ""], cs.length)

/-- The inner `for iss in plist` loop: assign the next id, append the
comment entry, anchor the markers at the first run. -/
def processIssues : List Issue → List PNode → Nat → Nat → List Wcomment →
    List PNode × Nat × List Wcomment
  | [], cs, _, nid, cms => (cs, nid, cms)
  | iss :: rest, cs, fr, nid, cms =>
      processIssues rest (insertMarkers cs fr nid).1 (insertMarkers cs fr nid).2
        (nid + 1) (cms ++ [⟨nid, make_comment_text iss⟩])

/-- The outer `for pidx, plist in by_p.items()` loop: groups whose index is
not a valid paragraph index are skipped (`continue`); for the rest, the
paragraph is edited in place. -/
def processGroups : List (Nat × List Issue) → List (List PNode) → Nat → List Wcomment →
    List (List PNode) × Nat × List Wcomment
  | [], ps, nid, cms => (ps, nid, cms)
  | (pidx, plist) :: rest, ps, nid, cms =>
      match ps.get? pidx with
      | none => processGroups rest ps nid cms
      | some cs =>
          processGroups rest
            (ps.set pidx (processIssues plist (ensureRun cs).1 (ensureRun cs).2 nid cms).1)
            (processIssues plist (ensureRun cs).1 (ensureRun cs).2 nid cms).2.1
            (processIssues plist (ensureRun cs).1 (ensureRun cs).2 nid cms).2.2

/-- The whole of `add_word_comments`: group the findings by clamped anchor,
continue comment ids after the existing maximum (or start at 0), anchor
each finding's comment at the first run of its paragraph, write the
comments part back, and make sure the relationship to it exists. -/
def add_word_comments (st : DocxState) (issues : List Issue) : DocxState :=
  ⟨(processGroups (buildGroups issues) st.paras
      (nextCommentId (st.comments.getD [])) (st.comments.getD [])).1,
    some (processGroups (buildGroups issues) st.paras
      (nextCommentId (st.comments.getD [])) (st.comments.getD [])).2.2,
    relsWithComments st.rels⟩

/-- The comment entries appended for one group's issue list, ids counting
up from `nid`. -/
def freshComments : Nat → List Issue → List Wcomment
  | _, [] => []
  | nid, iss :: rest => ⟨nid, make_comment_text iss⟩ :: freshComments (nid + 1) rest

/-- Total number of issues sitting in groups whose paragraph index is in
range for a document of `n` paragraphs. -/
def keptLen (n : Nat) : List (Nat × List Issue) → Nat
  | [] => 0
  | (k, l) :: rest => (if k < n then l.length else 0) + keptLen n rest

theorem mem_pyInsert_self (l : List PNode) (i : Nat) (a : PNode) : a ∈ pyInsert l i a := by
  unfold pyInsert
  exact List.mem_append.mpr (Or.inr (List.mem_cons_self a _))

theorem mem_pyInsert_of_mem (l : List PNode) (i : Nat) (a x : PNode) (hx : x ∈ l) :
    x ∈ pyInsert l i a := by
  unfold pyInsert
  rcases List.mem_append.mp ((List.take_append_drop i l).symm ▸ hx) with h | h
  · exact List.mem_append.mpr (Or.inl h)
  · exact List.mem_append.mpr (Or.inr (List.mem_cons_of_mem a h))

theorem processIssues_nid : ∀ (plist : List Issue) (cs : List PNode) (fr nid : Nat)
    (cms : List Wcomment), (processIssues plist cs fr nid cms).2.1 = nid + plist.length
  | [], _, _, _, _ => rfl
  | iss :: rest, cs, fr, nid, cms => by
    rw [processIssues, processIssues_nid rest, List.length_cons]
    omega

theorem processIssues_cms : ∀ (plist : List Issue) (cs : List PNode) (fr nid : Nat)
    (cms : List Wcomment),
    (processIssues plist cs fr nid cms).2.2 = cms ++ freshComments nid plist
  | [], _, _, _, cms => (List.append_nil cms).symm
  | iss :: rest, cs, fr, nid, cms => by
    rw [processIssues, processIssues_cms rest, freshComments]
    simp

theorem freshComments_length : ∀ (nid : Nat) (l : List Issue),
    (freshComments nid l).length = l.length
  | _, [] => rfl
  | nid, iss :: rest => by
    rw [freshComments, List.length_cons, List.length_cons, freshComments_length (nid + 1) rest]

theorem freshComments_ids : ∀ (nid : Nat) (l : List Issue),
    (freshComments nid l).map (fun c => c.id) = List.range' nid l.length
  | _, [] => rfl
  | nid, iss :: rest => by
    rw [freshComments, List.map_cons, freshComments_ids (nid + 1) rest, List.length_cons,
      List.range'_succ]

theorem range1_append (s m n : Nat) :
    List.range' s m ++ List.range' (s + m) n = List.range' s (m + n) := by
  have h := List.range'_append s m n 1
  rw [Nat.one_mul] at h
  rw [h, Nat.add_comm n m]

theorem keptLen_addToGroups (n k : Nat) (iss : Issue) :
    ∀ gs : List (Nat × List Issue),
      keptLen n (addToGroups gs k iss) = keptLen n gs + (if k < n then 1 else 0)
  | [] => by
    simp [addToGroups, keptLen]
  | (k', l) :: rest => by
    by_cases hk : k' = k
    · subst hk
      simp only [addToGroups, if_pos rfl, keptLen, List.length_append, List.length_cons,
        List.length_nil]
      by_cases hlt : k' < n
      · simp only [if_pos hlt]
        omega
      · simp only [if_neg hlt]
        omega
    · simp only [addToGroups, if_neg hk, keptLen]
      rw [keptLen_addToGroups n k iss rest, Nat.add_assoc]

theorem keptLen_foldGroups (n : Nat) :
    ∀ (issues : List Issue) (gs0 : List (Nat × List Issue)),
      keptLen n (issues.foldl (fun gs iss => addToGroups gs (issueKey iss) iss) gs0) =
        keptLen n gs0 + issues.countP (fun i => decide (issueKey i < n))
  | [], gs0 => by simp
  | iss :: rest, gs0 => by
    rw [List.foldl_cons, keptLen_foldGroups n rest, keptLen_addToGroups, List.countP_cons]
    by_cases h : issueKey iss < n
    · simp [h]
      omega
    · simp [h]

theorem processGroups_paras_length : ∀ (gs : List (Nat × List Issue)) (ps : List (List PNode))
    (nid : Nat) (cms : List Wcomment), (processGroups gs ps nid cms).1.length = ps.length
  | [], _, _, _ => rfl
  | (pidx, plist) :: rest, ps, nid, cms => by
    simp only [processGroups]
    split
    · exact processGroups_paras_length rest ps nid cms
    · rw [processGroups_paras_length rest, List.length_set]

theorem processGroups_cms : ∀ (gs : List (Nat × List Issue)) (ps : List (List PNode))
    (nid : Nat) (cms : List Wcomment),
    ∃ fresh : List Wcomment,
      (processGroups gs ps nid cms).2.2 = cms ++ fresh ∧
      fresh.length = keptLen ps.length gs ∧
      fresh.map (fun c => c.id) = List.range' nid fresh.length ∧
      (processGroups gs ps nid cms).2.1 = nid + fresh.length
  | [], ps, nid, cms => ⟨[], (List.append_nil cms).symm, rfl, rfl, rfl⟩
  | (pidx, plist) :: rest, ps, nid, cms => by
    simp only [processGroups]
    split
    · rename_i hp
      obtain ⟨fresh, h1, h2, h3, h4⟩ := processGroups_cms rest ps nid cms
      refine ⟨fresh, h1, ?_, h3, h4⟩
      have hlen : ¬ pidx < ps.length := by
        have := List.get?_eq_none.mp hp
        omega
      rw [h2, keptLen, if_neg hlen, Nat.zero_add]
    · rename_i cs hp
      have hnid := processIssues_nid plist (ensureRun cs).1 (ensureRun cs).2 nid cms
      have hcms := processIssues_cms plist (ensureRun cs).1 (ensureRun cs).2 nid cms
      obtain ⟨fresh2, h1, h2, h3, h4⟩ := processGroups_cms rest
        (ps.set pidx (processIssues plist (ensureRun cs).1 (ensureRun cs).2 nid cms).1)
        (processIssues plist (ensureRun cs).1 (ensureRun cs).2 nid cms).2.1
        (processIssues plist (ensureRun cs).1 (ensureRun cs).2 nid cms).2.2
      rw [hnid] at h3
      rw [List.length_set] at h2
      have hlt : pidx < ps.length := (List.get?_eq_some.mp hp).1
      refine ⟨freshComments nid plist ++ fresh2, ?_, ?_, ?_, ?_⟩
      · rw [h1, hcms, List.append_assoc]
      · rw [List.length_append, freshComments_length, keptLen, if_pos hlt, h2]
      · rw [List.map_append, freshComments_ids, h3, List.length_append, freshComments_length,
          range1_append]
      · rw [h4, hnid, List.length_append, freshComments_length]
        omega

theorem foldl_max_le_init : ∀ (l : List Nat) (a : Nat), a ≤ l.foldl max a
  | [], a => Nat.le_refl a
  | b :: t, a => Nat.le_trans (Nat.le_max_left a b) (foldl_max_le_init t (max a b))

theorem le_foldl_max_of_mem : ∀ (l : List Nat) (a x : Nat), x ∈ l → x ≤ l.foldl max a
  | [], _, x, h => absurd h (List.not_mem_nil x)
  | b :: t, a, x, h => by
    rcases List.mem_cons.mp h with h | h
    · subst h
      exact Nat.le_trans (Nat.le_max_right a x) (foldl_max_le_init t (max a x))
    · exact le_foldl_max_of_mem t (max a b) x h

theorem le_pyMaxList (l : List Nat) (x : Nat) (h : x ∈ l) : x ≤ pyMaxList l := by
  cases l with
  | nil => cases h
  | cons b t =>
    show x ≤ t.foldl max b
    rcases List.mem_cons.mp h with h | h
    · subst h
      exact foldl_max_le_init t x
    · exact le_foldl_max_of_mem t b x h

theorem chain_lt_range1 (s n : Nat) : List.Chain' (fun a b => a < b) (List.range' s n) := by
  rw [List.chain'_iff_pairwise]
  exact List.pairwise_lt_range' s n 1 (by omega)

theorem processGroups_single_zero (p0 : List PNode) (rest : List (List PNode)) (nid : Nat)
    (cms : List Wcomment) (iss : Issue) :
    processGroups [(0, [iss])] (p0 :: rest) nid cms =
      ((insertMarkers (ensureRun p0).1 (ensureRun p0).2 nid).1 :: rest, nid + 1,
        cms ++ [⟨nid, make_comment_text iss⟩]) := rfl

theorem lt_nextCommentId_of_mem (cs : List Wcomment) (c' : Wcomment) (hm : c' ∈ cs) :
    c'.id < nextCommentId cs := by
  cases cs with
  | nil => cases hm
  | cons a t =>
    have hle : c'.id ≤ pyMaxList ((a :: t).map (fun c => c.id)) :=
      le_pyMaxList _ _ (List.mem_map_of_mem _ hm)
    show c'.id < pyMaxList ((a :: t).map (fun c => c.id)) + 1
    omega

/-- Claim C8: a finding whose clamped anchor index is at least the number
of body paragraphs produces no comment — the comments part grows by
exactly the number of findings whose clamped anchor is a valid paragraph
index, and the paragraph list keeps its length — while a negative anchor
index is clamped to `0`: run on such a finding, the injector appends its
comment under the next free id, puts the comment range start into the
first paragraph, and leaves every other paragraph unchanged. -/
theorem injector_anchor_bounds (st : DocxState) (issues : List Issue) (iss : Issue)
    (hneg : iss.anchor_paragraph_index < 0) (hpar : 0 < st.paras.length) :
    ((add_word_comments st issues).paras.length = st.paras.length ∧
      ((add_word_comments st issues).comments.getD []).length =
        (st.comments.getD []).length +
          issues.countP (fun i => decide (issueKey i < st.paras.length))) ∧
    issueKey iss = 0 ∧
    (∃ p0, (add_word_comments st [iss]).paras.head? = some p0 ∧
        PNode.rangeStart (nextCommentId (st.comments.getD [])) ∈ p0) ∧
    (add_word_comments st [iss]).comments =
      some (st.comments.getD [] ++
        [⟨nextCommentId (st.comments.getD []), make_comment_text iss⟩]) ∧
    (add_word_comments st [iss]).paras.tail = st.paras.tail := by
  have hkey : issueKey iss = 0 := by
    unfold issueKey
    cases hanc : iss.anchor_paragraph_index with
    | ofNat n =>
      rw [hanc] at hneg
      exact absurd hneg (not_lt.mpr (Int.ofNat_nonneg n))
    | negSucc m => rfl
  obtain ⟨fresh, h1, h2, h3, h4⟩ := processGroups_cms (buildGroups issues) st.paras
      (nextCommentId (st.comments.getD [])) (st.comments.getD [])
  refine ⟨⟨?_, ?_⟩, hkey, ?_⟩
  · exact processGroups_paras_length (buildGroups issues) st.paras _ _
  · show ((processGroups (buildGroups issues) st.paras
        (nextCommentId (st.comments.getD [])) (st.comments.getD [])).2.2).length = _
    rw [h1, List.length_append, h2, buildGroups, keptLen_foldGroups]
    simp [keptLen]
  · cases hps : st.paras with
    | nil =>
      rw [hps] at hpar
      simp at hpar
    | cons p0 rest =>
      have hbg : buildGroups [iss] = [(0, [iss])] := by
        rw [buildGroups, List.foldl_cons, List.foldl_nil, hkey]
        rfl
      have hrun : add_word_comments st [iss] =
          ⟨(insertMarkers (ensureRun p0).1 (ensureRun p0).2
              (nextCommentId (st.comments.getD []))).1 :: rest,
            some (st.comments.getD [] ++
              [⟨nextCommentId (st.comments.getD []), make_comment_text iss⟩]),
            relsWithComments st.rels⟩ := by
        simp only [add_word_comments, hbg, hps, processGroups_single_zero]
      refine ⟨⟨(insertMarkers (ensureRun p0).1 (ensureRun p0).2
          (nextCommentId (st.comments.getD []))).1, ?_, ?_⟩, ?_, ?_⟩
      · rw [hrun]
        rfl
      · show PNode.rangeStart (nextCommentId (st.comments.getD [])) ∈
          pyInsert (pyInsert (pyInsert (ensureRun p0).1 (ensureRun p0).2
              (PNode.rangeStart (nextCommentId (st.comments.getD []))))
              ((ensureRun p0).2 + 3) (PNode.rangeEnd (nextCommentId (st.comments.getD []))))
            (min ((ensureRun p0).2 + 3) ((ensureRun p0).1.length + 1) + 1)
            (PNode.refRun (nextCommentId (st.comments.getD [])))
        exact mem_pyInsert_of_mem _ _ _ _
          (mem_pyInsert_of_mem _ _ _ _ (mem_pyInsert_self _ _ _))
      · rw [hrun]
      · rw [hrun]
        rfl

def stW8 : DocxState :=
  ⟨[[PNode.run "Chapter One"], [PNode.other]],
    some [⟨0, "seed"⟩],
    [⟨"rId1",
      "http://schemas.openxmlformats.org/officeDocument/2006/relationships/styles",
      "styles.xml"⟩]⟩

def issuesW8 : List Issue :=
  [⟨"STR-CH-001", "High", "m1", "e1", "Structure", 1⟩,
    ⟨"APA-REF-001", "High", "m2", "e2", "References", 7⟩]

def issW8 : Issue := ⟨"FMT-001", "High", "m3", "e3", "Formatting", -3⟩

theorem injector_anchor_bounds_witness :
    issW8.anchor_paragraph_index < 0 ∧ 0 < stW8.paras.length ∧
      (((add_word_comments stW8 issuesW8).paras.length = stW8.paras.length ∧
        ((add_word_comments stW8 issuesW8).comments.getD []).length =
          (stW8.comments.getD []).length +
            issuesW8.countP (fun i => decide (issueKey i < stW8.paras.length))) ∧
      issueKey issW8 = 0 ∧
      (∃ p0, (add_word_comments stW8 [issW8]).paras.head? = some p0 ∧
          PNode.rangeStart (nextCommentId (stW8.comments.getD [])) ∈ p0) ∧
      (add_word_comments stW8 [issW8]).comments =
        some (stW8.comments.getD [] ++
          [⟨nextCommentId (stW8.comments.getD []), make_comment_text issW8⟩]) ∧
      (add_word_comments stW8 [issW8]).paras.tail = stW8.paras.tail) :=
  ⟨by decide, by decide, injector_anchor_bounds stW8 issuesW8 issW8 (by decide) (by decide)⟩

/-- Claim C9: when a comments part already exists, the injector assigns the
new comment ids consecutively starting at the existing maximum plus one, so
they are strictly increasing, each exceeds every existing id, the existing
entries are left untouched as a prefix, and (when the existing ids are
distinct) the combined id list has no collisions — rerunning on annotated
output therefore only adds fresh, disjoint ids. -/
theorem injector_comment_ids_unique (st : DocxState) (issues : List Issue)
    (cs : List Wcomment) (hc : st.comments = some cs) :
    ∃ fresh : List Wcomment,
      (add_word_comments st issues).comments = some (cs ++ fresh) ∧
      fresh.map (fun c => c.id) = List.range' (nextCommentId cs) fresh.length ∧
      List.Chain' (fun a b => a < b) (fresh.map (fun c => c.id)) ∧
      (∀ c ∈ fresh, ∀ c' ∈ cs, c'.id < c.id) ∧
      ((cs.map (fun c => c.id)).Nodup → ((cs ++ fresh).map (fun c => c.id)).Nodup) := by
  obtain ⟨fresh, h1, h2, h3, h4⟩ := processGroups_cms (buildGroups issues) st.paras
      (nextCommentId (st.comments.getD [])) (st.comments.getD [])
  simp only [hc, Option.getD_some] at h1 h3
  refine ⟨fresh, ?_, h3, ?_, ?_, ?_⟩
  · show some ((processGroups (buildGroups issues) st.paras
        (nextCommentId (st.comments.getD [])) (st.comments.getD [])).2.2) = _
    simp only [hc, Option.getD_some]
    rw [h1]
  · rw [h3]
    exact chain_lt_range1 _ _
  · intro c hcf c' hcc
    have hid : c.id ∈ fresh.map (fun c => c.id) := List.mem_map_of_mem _ hcf
    rw [h3] at hid
    have hge := (List.mem_range'_1.mp hid).1
    have hlt := lt_nextCommentId_of_mem cs c' hcc
    omega
  · intro hnd
    rw [List.map_append, List.nodup_append]
    refine ⟨hnd, ?_, ?_⟩
    · rw [h3]
      exact List.nodup_range' _ _ 1 (by omega)
    · intro a ha hb
      rw [h3] at hb
      have hge := (List.mem_range'_1.mp hb).1
      obtain ⟨c', hc', rfl⟩ := List.mem_map.mp ha
      have hlt := lt_nextCommentId_of_mem cs c' hc'
      omega

def csW9 : List Wcomment := [⟨0, "first"⟩, ⟨2, "second"⟩]

def stW9 : DocxState :=
  ⟨[[PNode.other, PNode.run "Body"]],
    some csW9,
    [⟨"rId1",
      "http://schemas.openxmlformats.org/officeDocument/2006/relationships/comments",
      "comments.xml"⟩]⟩

def issuesW9 : List Issue :=
  [⟨"ETH-SIM-001", "Medium", "m1", "e1", "Document-wide", 0⟩,
    ⟨"STR-FM-002", "High", "m2", "e2", "Front matter", 0⟩]

theorem injector_comment_ids_unique_witness :
    stW9.comments = some csW9 ∧
      (∃ fresh : List Wcomment,
        (add_word_comments stW9 issuesW9).comments = some (csW9 ++ fresh) ∧
        fresh.map (fun c => c.id) = List.range' (nextCommentId csW9) fresh.length ∧
        List.Chain' (fun a b => a < b) (fresh.map (fun c => c.id)) ∧
        (∀ c ∈ fresh, ∀ c' ∈ csW9, c'.id < c.id) ∧
        ((csW9.map (fun c => c.id)).Nodup →
          ((csW9 ++ fresh).map (fun c => c.id)).Nodup)) :=
  ⟨rfl, injector_comment_ids_unique stW9 issuesW9 csW9 rfl⟩

end TC
